import Mathlib

/-!
# recipe_dictionary: load / finalize pipeline

A shallow embedding of `src/recipe_dictionary.cpp`.

* `std::string`, `itype_id`, `skill_id` and `requirement_id` are `String`.
* `std::map<std::string, T>` is `StrMap T`: the list of its entries in iteration
  order (strictly ascending keys, `StrMap.WF`).
* `std::set<const recipe *>` is a list of keys of the `recipes` map: a pointer
  `&r` to a record owned by `recipes` is represented by the key of that record.
* The item registry, the skill registry and the requirement algebra are
  collaborators that are not part of the sources; they are the fields of `Env`.
* The requirement catalog (`requirement_data::load_requirement`, `*requirement_id`)
  is the function `requirements_all` carried by `World`.
* `int` is `Int`; the only arithmetic of the file (`pages * 10`, `byproducts[..] += n`)
  is discussed where it is used.
-/

namespace RecipeDict

/-! ## Strings and ordered maps -/

/-- Lexicographic comparison of character sequences by character code:
`std::string::operator<`. -/
def lex_lt : List Char → List Char → Bool
  | [], [] => false
  | [], _ :: _ => true
  | _ :: _, [] => false
  | a :: as, b :: bs =>
    if a.toNat < b.toNat then true
    else if b.toNat < a.toNat then false
    else lex_lt as bs

/-- Key order of `std::map<std::string, T>`. -/
def str_lt (a b : String) : Bool := lex_lt a.toList b.toList

/-- An ordered map with string keys, as the list of its entries in iteration order. -/
abbrev StrMap (β : Type) := List (String × β)

namespace StrMap

variable {β : Type}

/-- `m.find(k)`: the mapped value, `none` for `m.end()`. -/
def find (k : String) : StrMap β → Option β
  | [] => none
  | (k2, v) :: t => if k2 = k then some v else find k t

/-- `m.count(k)` as a truth value. -/
def count (k : String) (m : StrMap β) : Bool := (find k m).isSome

/-- `m[k] = v`: replaces the value under `k` or inserts a new entry at its place in
key order. -/
def insert (k : String) (v : β) : StrMap β → StrMap β
  | [] => [(k, v)]
  | (k2, v2) :: t =>
    if str_lt k k2 then (k, v) :: (k2, v2) :: t
    else if k = k2 then (k, v) :: t
    else (k2, v2) :: insert k v t

/-- `m.emplace(k, v)`: inserts only when `k` is not yet a key. -/
def emplace (k : String) (v : β) (m : StrMap β) : StrMap β :=
  if count k m then m else insert k v m

/-- The keys in iteration order. -/
def keys (m : StrMap β) : List String := m.map Prod.fst

/-- Representation invariant of `std::map`: keys strictly ascending. -/
def WF (m : StrMap β) : Prop := m.Pairwise (fun a b => str_lt a.1 b.1 = true)

instance (m : StrMap β) : Decidable (WF m) := by
  unfold WF; infer_instance

end StrMap

/-- `s.insert(p)` on a `std::set` of record pointers; the set is kept as a
duplicate-free list of record keys. -/
def ptr_insert (p : String) (s : List String) : List String :=
  if p ∈ s then s else s ++ [p]

/-! ## Data model -/

/-- The fields of `recipe` that `recipe_dictionary.cpp` reads or writes.
`batch_rscale` holds the percentage given in the definition (the source stores
that integer divided by `100.0`). `requirements_` is the resolved requirement
set; `Req` is the type of `requirement_data`. -/
structure recipe (Req : Type) where
  ident_ : String
  result : String
  category : String
  subcategory : String
  time : Int
  difficulty : Int
  flags : StrMap Unit
  contained : Bool
  container : String
  batch_rscale : Int
  batch_rsize : Int
  charges : Int
  result_mult : Int
  skill_used : String
  required_skills : StrMap Int
  autolearn : Bool
  autolearn_requirements : StrMap Int
  learn_by_disassembly : StrMap Int
  byproducts : StrMap Int
  booksets : StrMap Int
  reqs : List (String × Int)
  requirements_ : Req
  reversible : Bool
deriving DecidableEq

/-- The part of an item type (`itype`) that `finalize` reads. -/
structure itype where
  book : Bool
  volume : Int
  default_container : String
deriving DecidableEq

/-- The collaborators of the dictionary: item registry (`item::`, `item_controller`),
skill registry (`skill_id`), the constant `MAX_SKILL`, and the algebra of
`requirement_data` (`requirement_data()`, `operator+`, `operator*`,
`is_blacklisted`, `get_components` reduced to the item types of each alternative). -/
structure Env (Req : Type) where
  type_is_defined : String → Bool
  count_by_charges : String → Bool
  find_type : String → itype
  nname : String → String
  all_itypes : List (String × itype)
  skill_null : String
  skill_is_valid : String → Bool
  MAX_SKILL : Int
  req_empty : Req
  req_add : Req → Req → Req
  req_scale : Req → Int → Req
  is_blacklisted : Req → Bool
  get_components : Req → List (List String)

/-- Modelled from the spec: the default-constructed `recipe` (recipe.h is not part of
the sources): difficulty 0, time 0, result_mult 1, reversible false, charges unset,
contained false, container and result the "null" sentinel, skill_used unset, all
collections empty, requirements the empty requirement set. -/
def recipe.default {Req : Type} (env : Env Req) : recipe Req :=
  { ident_ := "", result := "null", category := "", subcategory := "",
    time := 0, difficulty := 0, flags := [], contained := false, container := "null",
    batch_rscale := 0, batch_rsize := 0, charges := -1, result_mult := 1,
    skill_used := env.skill_null, required_skills := [], autolearn := false,
    autolearn_requirements := [], learn_by_disassembly := [], byproducts := [],
    booksets := [], reqs := [], requirements_ := env.req_empty, reversible := false }

/-- The static `null_recipe`. -/
def null_recipe {Req : Type} (env : Env Req) : recipe Req := recipe.default env

/-- `!id.is_null()`: the conversion of a `skill_id` to `bool`. -/
def skill_set {Req : Type} (env : Env Req) (s : String) : Bool := s != env.skill_null

/-- The four containers of `recipe_dictionary`. The index sets hold pointers to
records of `recipes`, represented by their keys. -/
structure recipe_dictionary (Req : Type) where
  recipes : StrMap (recipe Req)
  uncraft : StrMap (recipe Req)
  category : StrMap (List String)
  component : StrMap (List String)

/-- An entry of a book's known-recipes collection
(`islot_book::recipe_with_description_t`), the recipe given by its key. -/
structure book_recipe where
  book : String
  recipe_key : String
  skill_level : Int
  name : String
deriving DecidableEq

/-- The dictionary together with the state of its collaborators that the dictionary
writes: the requirement catalog, the insertions made into books' known-recipes
collections (in call order) and the `debugmsg` diagnostics (in call order). -/
structure World (Req : Type) where
  dict : recipe_dictionary Req
  requirements_all : String → Req
  book_recipes : List book_recipe
  debug_log : List String

/-! ## Loader -/

/-- The forms of the `skills_required` member that `load` tells apart. -/
inductive SkillsRequired where
  | empty
  | single (skill : String) (level : Int)
  | multiple (entries : List (String × Int))
deriving DecidableEq

/-- The forms of the `autolearn` member. -/
inductive Autolearn where
  | flag (b : Bool)
  | levels (entries : List (String × Int))
deriving DecidableEq

/-- The forms of the `decomp_learn` member: an integer, an array of
`[skill, level]` arrays, or a member of another JSON type. -/
inductive DecompLearn where
  | level (n : Int)
  | levels (entries : List (String × Int))
  | other
deriving DecidableEq

/-- The forms of the `using` member. -/
inductive Using where
  | name (s : String)
  | list (entries : List (String × Int))
deriving DecidableEq

/-- A definition (`JsonObject`) as `load` sees it: for every member that `load`
reads, whether it is present (`some`) and in which form. `byproducts` entries carry
their count when the entry is a two-element array. `inline_requirement` is the
requirement set that `requirement_data::load_requirement` parses from the
definition's own component, tool and quality lists. -/
structure JsonObject (Req : Type) where
  result : String
  id_suffix : Option String
  category : Option String
  subcategory : Option String
  reversible : Option Bool
  time : Option Int
  difficulty : Option Int
  flags : Option (List String)
  contained : Option Bool
  container : Option String
  batch_time_factors : Option (Int × Int)
  charges : Option Int
  result_mult : Option Int
  skill_used : Option String
  skills_required : Option SkillsRequired
  autolearn : Option Autolearn
  decomp_learn : Option DecompLearn
  byproducts : Option (List (String × Option Int))
  book_learn : Option (List (String × Int))
  using_ : Option Using
  inline_requirement : Req

/-- `std::numeric_limits<int>::max()`. -/
def INT_MAX : Int := 2147483647

/-- Modelled from the spec: `assign( jo, name, val, strict )` of assign.h, which is not
part of the sources, for a member without bounds: a present member replaces the
value, an absent one leaves it; the flag tells whether the member was present. -/
def assign {α : Type} (member : Option α) (val : α) : α × Bool :=
  match member with
  | some v => (v, true)
  | none => (val, false)

/-- Modelled from the spec: `assign( jo, name, val, strict, lo, hi )` of assign.h, which
is not part of the sources, for a bounded integer member: a present member is
brought into `[lo, hi]` and replaces the value, an absent one leaves it. -/
def assign_bounded (member : Option Int) (val lo hi : Int) : Int × Bool :=
  match member with
  | some v => (max lo (min hi v), true)
  | none => (val, false)

/-- A loop `while( a.has_more() ) { arr = a.next_array(); m[arr[0]] = arr[1]; }`. -/
def assign_pairs (entries : List (String × Int)) (m : StrMap Int) : StrMap Int :=
  entries.foldl (fun acc p => StrMap.insert p.1 p.2 acc) m

/-- The `byproducts` loop: `m[arr[0]] += arr.size() == 2 ? arr[1] : 1`. -/
def add_byproducts (entries : List (String × Option Int)) (m : StrMap Int) : StrMap Int :=
  entries.foldl
    (fun acc p => StrMap.insert p.1 ((StrMap.find p.1 acc).getD 0 + p.2.getD 1) acc) m

/-- The `book_learn` loop: `m.emplace( arr[0], arr[1] )`. -/
def emplace_pairs (entries : List (String × Int)) (m : StrMap Int) : StrMap Int :=
  entries.foldl (fun acc p => StrMap.emplace p.1 p.2 acc) m

/-- The set built from a list of tags (`std::set<std::string>`). -/
def flag_set (tags : List String) : StrMap Unit :=
  tags.foldl (fun acc t => StrMap.insert t () acc) []

/-- Lines 48-109 of `load`: every member up to and including `autolearn`. -/
def load_head {Req : Type} (env : Env Req) (jo : JsonObject Req) (uncraft : Bool)
    (r0 : recipe Req) : recipe Req :=
  let r := { r0 with result := jo.result, ident_ := jo.result ++ jo.id_suffix.getD "" }
  let r :=
    if uncraft then { r with reversible := true }
    else { r with category := (assign jo.category r.category).1,
                  subcategory := (assign jo.subcategory r.subcategory).1,
                  reversible := (assign jo.reversible r.reversible).1 }
  let r := { r with time := (assign_bounded jo.time r.time 0 INT_MAX).1 }
  let r := { r with difficulty := (assign_bounded jo.difficulty r.difficulty 0 env.MAX_SKILL).1 }
  let r := { r with flags := (assign (jo.flags.map flag_set) r.flags).1 }
  let r := { r with contained := (assign jo.contained r.contained).1 }
  let c := assign jo.container r.container
  let r := { r with container := c.1, contained := r.contained || c.2 }
  let r :=
    match jo.batch_time_factors with
    | some batch => { r with batch_rscale := batch.1, batch_rsize := batch.2 }
    | none => r
  let r := { r with charges := (assign jo.charges r.charges).1 }
  let r := { r with result_mult := (assign jo.result_mult r.result_mult).1 }
  let r := { r with skill_used := (assign jo.skill_used r.skill_used).1 }
  let r :=
    match jo.skills_required with
    | none => r
    | some SkillsRequired.empty => { r with required_skills := [] }
    | some (SkillsRequired.multiple entries) =>
      { r with required_skills := assign_pairs entries [] }
    | some (SkillsRequired.single skill level) =>
      { r with required_skills := StrMap.insert skill level [] }
  match jo.autolearn with
  | some (Autolearn.flag b) => { r with autolearn := b }
  | some (Autolearn.levels entries) =>
    { r with autolearn := false,
             autolearn_requirements := assign_pairs entries r.autolearn_requirements }
  | none => r

/-- Lines 111-127 of `load`: the `decomp_learn` member. `Except.error` is
`jo.throw_error`; it carries the record as it stands when the exception leaves
`load` (the record is a reference into the map, so these writes persist). -/
def load_decomp_learn {Req : Type} (env : Env Req) (jo : JsonObject Req)
    (r : recipe Req) : Except (String × recipe Req) (recipe Req) :=
  match jo.decomp_learn with
  | none => Except.ok r
  | some form =>
    let r := { r with learn_by_disassembly := [] }
    match form with
    | DecompLearn.level n =>
      if !skill_set env r.skill_used then
        Except.error ("decomp_learn specified with no skill_used", r)
      else
        Except.ok { r with learn_by_disassembly := StrMap.insert r.skill_used n r.learn_by_disassembly }
    | DecompLearn.levels entries =>
      Except.ok { r with learn_by_disassembly := assign_pairs entries r.learn_by_disassembly }
    | DecompLearn.other => Except.ok r

/-- Lines 129-159 and 163 of `load`: `byproducts`, `book_learn`, `using`, and the
entry for the inline requirement `req_id`. -/
def load_tail {Req : Type} (jo : JsonObject Req) (uncraft : Bool) (req_id : String)
    (r : recipe Req) : recipe Req :=
  let r :=
    match (!uncraft), jo.byproducts with
    | true, some entries => { r with byproducts := add_byproducts entries [] }
    | _, _ => r
  let r :=
    match jo.book_learn with
    | some entries => { r with booksets := emplace_pairs entries [] }
    | none => r
  let r :=
    match jo.using_ with
    | some (Using.name s) => { r with reqs := [(s, 1)] }
    | some (Using.list entries) => { r with reqs := entries }
    | none => r
  { r with reqs := r.reqs ++ [(req_id, 1)] }

/-- The key under which `load` stores the record. -/
def load_key {Req : Type} (jo : JsonObject Req) (uncraft : Bool) : String :=
  if uncraft then jo.result else jo.result ++ jo.id_suffix.getD ""

/-- Writes the record back under `key` in the map chosen by `uncraft`. -/
def store {Req : Type} (d : recipe_dictionary Req) (uncraft : Bool) (key : String)
    (r : recipe Req) : recipe_dictionary Req :=
  if uncraft then { d with uncraft := StrMap.insert key r d.uncraft }
  else { d with recipes := StrMap.insert key r d.recipes }

/-- The map that `load` works on: `uncraft ? recipe_dict.uncraft : recipe_dict.recipes`. -/
def target_map {Req : Type} (d : recipe_dictionary Req) (uncraft : Bool) :
    StrMap (recipe Req) :=
  if uncraft then d.uncraft else d.recipes

/-- The record `load` works on, `map[key]`: the record stored under the key, or a
default-constructed one when the key is new. -/
def target_record {Req : Type} (env : Env Req) (d : recipe_dictionary Req)
    (jo : JsonObject Req) (uncraft : Bool) : recipe Req :=
  (StrMap.find (load_key jo uncraft) (target_map d uncraft)).getD (recipe.default env)

/-- Modelled from the spec: `requirement_data::load_requirement( jo, id )` of
requirements.cpp, which is not part of the sources: registers the definition's
inline requirement in the catalog under `id`. -/
def load_requirement {Req : Type} (catalog : String → Req) (jo : JsonObject Req)
    (id : String) : String → Req :=
  fun k => if k = id then jo.inline_requirement else catalog k

/-- `recipe_dictionary::load`. The second component is the message of the exception
thrown, if any; the first is the state left behind in either case. -/
def load {Req : Type} (env : Env Req) (w : World Req) (jo : JsonObject Req)
    (uncraft : Bool) : World Req × Option String :=
  let key := load_key jo uncraft
  let r := target_record env w.dict jo uncraft
  match load_decomp_learn env jo (load_head env jo uncraft r) with
  | Except.error (msg, r) => ({ w with dict := store w.dict uncraft key r }, some msg)
  | Except.ok r =>
    let req_id := "inline_recipe_" ++ r.ident_
    ({ w with dict := store w.dict uncraft key (load_tail jo uncraft req_id r),
              requirements_all := load_requirement w.requirements_all jo req_id }, none)

/-! ## Finalizer -/

/-- `std::accumulate( reqs.begin(), reqs.end(), requirement_data(), op )` with
`op( lhs, rhs ) = lhs + ( *rhs.first * rhs.second )`; `*id` reads the catalog. -/
def accumulate_reqs {Req : Type} (env : Env Req) (catalog : String → Req) :
    List (String × Int) → Req → Req
  | [], acc => acc
  | rhs :: rest, acc =>
    accumulate_reqs env catalog rest (env.req_add acc (env.req_scale (catalog rhs.1) rhs.2))

/-- What one pass of the loop of `finalize_internal` does with an entry. -/
inductive Verdict (Req : Type) where
  | erased (diagnostics : List String)
  | kept (r : recipe Req)

/-- The body of the loop of `finalize_internal` for the entry `(id, r0)`: the
requirements are resolved, then the checks run in source order; each `debugmsg`
is recorded with `%s` replaced by the key. -/
def finalize_entry {Req : Type} (env : Env Req) (catalog : String → Req) (id : String)
    (r0 : recipe Req) : Verdict Req :=
  let r := { r0 with requirements_ := accumulate_reqs env catalog r0.reqs env.req_empty }
  if env.is_blacklisted r.requirements_ then
    Verdict.erased []
  else if !env.type_is_defined r.result then
    Verdict.erased ["Recipe " ++ id ++ " defines invalid result"]
  else if decide (r.charges ≥ 0) && !env.count_by_charges r.result then
    Verdict.erased ["Recipe " ++ id ++ " specified charges but result is not counted by charges"]
  else if decide (r.result_mult ≠ 1) && !env.count_by_charges r.result then
    Verdict.erased ["Recipe " ++ id ++ " has result_mult but result is not counted by charges"]
  else if r.byproducts.any (fun bp => !env.type_is_defined bp.1) then
    Verdict.erased ["Recipe " ++ id ++ " defines invalid byproducts"]
  else if !r.contained && r.container != "null" then
    Verdict.erased ["Recipe " ++ id ++ " defines container but not contained"]
  else if !env.type_is_defined r.container then
    Verdict.erased ["Recipe " ++ id ++ " specifies unknown container"]
  else if (skill_set env r.skill_used && !env.skill_is_valid r.skill_used) ||
      r.required_skills.any (fun sk => !env.skill_is_valid sk.1) then
    Verdict.erased ["Recipe " ++ id ++ " uses invalid skill"]
  else if r.booksets.any (fun bk => !(env.find_type bk.1).book) then
    Verdict.erased ["Recipe " ++ id ++ " defines invalid book"]
  else
    Verdict.kept r

/-- `finalize_internal( obj )`: the map after the loop and the diagnostics emitted,
in order. -/
def finalize_internal {Req : Type} (env : Env Req) (catalog : String → Req) :
    StrMap (recipe Req) → StrMap (recipe Req) × List String
  | [] => ([], [])
  | (id, r0) :: rest =>
    let out := finalize_internal env catalog rest
    match finalize_entry env catalog id r0 with
    | Verdict.erased diagnostics => (out.1, diagnostics ++ out.2)
    | Verdict.kept r => ((id, r) :: out.1, out.2)

/-- `index[label].insert( &r )` for the record stored under `key`. -/
def index_insert (label key : String) (index : StrMap (List String)) : StrMap (List String) :=
  StrMap.insert label (ptr_insert key ((StrMap.find label index).getD [])) index

/-- The state that the loop over `recipes` in `finalize` threads through. -/
structure StageB (Req : Type) where
  uncraft : StrMap (recipe Req)
  category : StrMap (List String)
  component : StrMap (List String)
  book_recipes : List book_recipe

/-- Lines 259-268 of `finalize`: the writes to the record itself (default container,
autolearn requirements). -/
def finalize_record {Req : Type} (env : Env Req) (r0 : recipe Req) : recipe Req :=
  let r :=
    if r0.contained && r0.container == "null" then
      { r0 with container := (env.find_type r0.result).default_container }
    else r0
  if r.autolearn then
    let r := { r with autolearn_requirements := r.required_skills }
    if skill_set env r.skill_used then
      { r with autolearn_requirements :=
          StrMap.insert r.skill_used r.difficulty r.autolearn_requirements }
    else r
  else r

/-- The body of the loop over `recipes` in `finalize` (lines 251-283) for the entry
`(key, r0)`: the record as it is left, and the other containers. The book entries
are made first (lines 254-257), with the record's key standing for `&r`. -/
def finalize_recipe {Req : Type} (env : Env Req) (key : String) (r0 : recipe Req)
    (st : StageB Req) : recipe Req × StageB Req :=
  let books := st.book_recipes ++
    r0.booksets.map (fun bk =>
      { book := bk.1, recipe_key := key, skill_level := bk.2, name := env.nname r0.result })
  let r := finalize_record env r0
  let category := index_insert r.category key st.category
  let component :=
    (env.get_components r.requirements_).foldl
      (fun idx opts => opts.foldl (fun idx2 comp => index_insert comp key idx2) idx)
      st.component
  let uncraft :=
    if r.reversible && !StrMap.count r.result st.uncraft then
      StrMap.insert r.result r st.uncraft
    else st.uncraft
  (r, { uncraft := uncraft, category := category, component := component,
        book_recipes := books })

/-- The loop over `recipes` in `finalize`, in key order. -/
def finalize_recipes {Req : Type} (env : Env Req) :
    StrMap (recipe Req) → StageB Req → StrMap (recipe Req) × StageB Req
  | [], st => ([], st)
  | (key, r0) :: rest, st =>
    let step := finalize_recipe env key r0 st
    let out := finalize_recipes env rest step.2
    ((key, step.1) :: out.1, out.2)

/-- `int pages = volume / units::from_milliliter( 12.5 )`: the quotient is taken in
floating point and truncated; for an `int` volume it is the integer part of
`2 * volume / 25` (`Int.tdiv` truncates toward zero as the conversion does). -/
def book_pages (volume : Int) : Int := Int.tdiv (2 * volume) 25

/-- The body of the loop over all item types in `finalize` (lines 286-298). -/
def add_book_uncraft {Req : Type} (env : Env Req) (catalog : String → Req)
    (e : String × itype) (uncraft : StrMap (recipe Req)) : StrMap (recipe Req) :=
  if e.2.book && !StrMap.count e.1 uncraft && decide (e.2.volume > 0) then
    let pages := book_pages e.2.volume
    let bk := (StrMap.find e.1 uncraft).getD (recipe.default env)
    let bk := { bk with ident_ := e.1, result := e.1, reversible := true,
                        requirements_ := env.req_scale (catalog "uncraft_book") pages,
                        time := pages * 10 }
    StrMap.insert e.1 bk uncraft
  else uncraft

/-- `recipe_dictionary::finalize`. -/
def finalize {Req : Type} (env : Env Req) (w : World Req) : World Req :=
  let a1 := finalize_internal env w.requirements_all w.dict.recipes
  let a2 := finalize_internal env w.requirements_all w.dict.uncraft
  let b := finalize_recipes env a1.1
    { uncraft := a2.1, category := w.dict.category, component := w.dict.component,
      book_recipes := w.book_recipes }
  let uncraft := env.all_itypes.foldl
    (fun u e => add_book_uncraft env w.requirements_all e u) b.2.uncraft
  { w with
    dict := { recipes := b.1, uncraft := uncraft, category := b.2.category,
              component := b.2.component },
    book_recipes := b.2.book_recipes,
    debug_log := w.debug_log ++ a1.2 ++ a2.2 }

/-! ## Queries, reset, delete_if -/

/-- `recipe_dictionary::operator[]`. -/
def lookup {Req : Type} (env : Env Req) (d : recipe_dictionary Req) (id : String) :
    recipe Req :=
  match StrMap.find id d.recipes with
  | some r => r
  | none => null_recipe env

/-- `recipe_dictionary::get_uncraft`. -/
def get_uncraft {Req : Type} (env : Env Req) (d : recipe_dictionary Req) (id : String) :
    recipe Req :=
  match StrMap.find id d.uncraft with
  | some r => r
  | none => null_recipe env

/-- `recipe_dictionary::in_category`; `null_match` is the empty set. -/
def in_category {Req : Type} (d : recipe_dictionary Req) (cat : String) : List String :=
  match StrMap.find cat d.category with
  | some s => s
  | none => []

/-- `recipe_dictionary::of_component`. -/
def of_component {Req : Type} (d : recipe_dictionary Req) (id : String) : List String :=
  match StrMap.find id d.component with
  | some s => s
  | none => []

/-- `recipe_dictionary::reset`. -/
def reset {Req : Type} (_d : recipe_dictionary Req) : recipe_dictionary Req :=
  { recipes := [], uncraft := [], category := [], component := [] }

/-- The loop of `delete_if` over one map. -/
def erase_if {Req : Type} (pred : recipe Req → Bool) :
    StrMap (recipe Req) → StrMap (recipe Req)
  | [] => []
  | (k, r) :: rest => if pred r then erase_if pred rest else (k, r) :: erase_if pred rest

/-- `recipe_dictionary::delete_if`. -/
def delete_if {Req : Type} (pred : recipe Req → Bool) (d : recipe_dictionary Req) :
    recipe_dictionary Req :=
  { d with recipes := erase_if pred d.recipes, uncraft := erase_if pred d.uncraft }

/-! ## Definitions used in the statements -/

section SpecSide

variable {Req : Type}

/-- The resolved requirements as the specification words them: the left-to-right sum,
starting from the empty requirement set, of the catalog entries scaled by their
multipliers. -/
def weighted_sum (env : Env Req) (catalog : String → Req) (reqs : List (String × Int)) : Req :=
  reqs.foldl (fun acc term => env.req_add acc (env.req_scale (catalog term.1) term.2))
    env.req_empty

/-- The survival condition of Stage A as the specification words it. -/
def stage_a_valid (env : Env Req) (catalog : String → Req) (r : recipe Req) : Prop :=
  env.is_blacklisted (weighted_sum env catalog r.reqs) = false ∧
  env.type_is_defined r.result = true ∧
  (r.charges < 0 ∨ env.count_by_charges r.result = true) ∧
  (r.result_mult = 1 ∨ env.count_by_charges r.result = true) ∧
  (∀ bp ∈ r.byproducts, env.type_is_defined bp.1 = true) ∧
  (r.contained = true ∨ r.container = "null") ∧
  env.type_is_defined r.container = true ∧
  (r.skill_used = env.skill_null ∨ env.skill_is_valid r.skill_used = true) ∧
  (∀ sk ∈ r.required_skills, env.skill_is_valid sk.1 = true) ∧
  (∀ bk ∈ r.booksets, (env.find_type bk.1).book = true)

instance {Req : Type} (env : Env Req) (catalog : String → Req) (r : recipe Req) :
    Decidable (stage_a_valid env catalog r) := by
  unfold stage_a_valid; infer_instance

/-- What `finalize_internal` keeps of an entry: the record with its requirements
resolved, or nothing. -/
def entry_result (env : Env Req) (catalog : String → Req) (id : String) (r : recipe Req) :
    Option (recipe Req) :=
  match finalize_entry env catalog id r with
  | Verdict.kept r2 => some r2
  | Verdict.erased _ => none

/-- The diagnostics emitted for an entry. -/
def entry_diagnostics (env : Env Req) (catalog : String → Req) (id : String)
    (r : recipe Req) : List String :=
  match finalize_entry env catalog id r with
  | Verdict.kept _ => []
  | Verdict.erased diagnostics => diagnostics

end SpecSide

/-- A sequence of `load` calls, each with its definition and its `uncraft` flag; a call
that throws leaves its writes behind and the next call proceeds. -/
def load_sequence {Req : Type} (env : Env Req) (w : World Req)
    (calls : List (JsonObject Req × Bool)) : World Req :=
  calls.foldl (fun acc call => (load env acc call.1 call.2).1) w

/-- A call on the dictionary. -/
inductive Op (Req : Type) where
  | load (jo : JsonObject Req) (uncraft : Bool)
  | finalize
  | delete_if (pred : recipe Req → Bool)
  | reset

/-- The state after one call; a `load` that throws leaves its writes behind. -/
def apply_op {Req : Type} (env : Env Req) (w : World Req) : Op Req → World Req
  | Op.load jo uncraft => (load env w jo uncraft).1
  | Op.finalize => finalize env w
  | Op.delete_if pred => { w with dict := delete_if pred w.dict }
  | Op.reset => { w with dict := reset w.dict }

/-- The state after a sequence of calls. -/
def run_ops {Req : Type} (env : Env Req) (w : World Req) (ops : List (Op Req)) : World Req :=
  ops.foldl (apply_op env) w

/-- A definition that has the key fields `result` and `id_suffix` and no other member
that `load` reads; `inline` is what its (absent) component and tool lists parse to. -/
def bare_definition {Req : Type} (result : String) (id_suffix : Option String)
    (inline : Req) : JsonObject Req :=
  { result := result, id_suffix := id_suffix, category := none, subcategory := none,
    reversible := none, time := none, difficulty := none, flags := none,
    contained := none, container := none, batch_time_factors := none, charges := none,
    result_mult := none, skill_used := none, skills_required := none, autolearn := none,
    decomp_learn := none, byproducts := none, book_learn := none, using_ := none,
    inline_requirement := inline }

/-- The base of the requirement expression after a load, as the specification words
it: the prior list when `using` is absent, the single reference at multiplier 1 for
the string form, the listed pairs for the list form. -/
def using_base (jo_using : Option Using) (prior : List (String × Int)) :
    List (String × Int) :=
  match jo_using with
  | none => prior
  | some (Using.name s) => [(s, 1)]
  | some (Using.list entries) => entries

/-! ## A sample environment -/

/-- A small requirement algebra: alternatives of `(item, count)` components and the
blacklist mark; sum concatenates, scaling multiplies the counts. -/
structure SampleReq where
  components : List (List (String × Int))
  blacklisted : Bool
deriving DecidableEq

/-- A registry with a few item types (one of them a book of 250 ml, one counted by
charges) and two skills. -/
def sample_env : Env SampleReq :=
  { type_is_defined := fun s => decide (s ∈ ["null", "bread", "flour", "manual", "bottle"]),
    count_by_charges := fun s => decide (s = "flour"),
    find_type := fun s =>
      if s = "manual" then { book := true, volume := 250, default_container := "null" }
      else if s = "flour" then { book := false, volume := 250, default_container := "bottle" }
      else { book := false, volume := 500, default_container := "null" },
    nname := fun s => s,
    all_itypes :=
      [("bottle", { book := false, volume := 500, default_container := "null" }),
       ("bread", { book := false, volume := 500, default_container := "null" }),
       ("flour", { book := false, volume := 250, default_container := "bottle" }),
       ("manual", { book := true, volume := 250, default_container := "null" }),
       ("null", { book := false, volume := 500, default_container := "null" })],
    skill_null := "none",
    skill_is_valid := fun s => decide (s ∈ ["cooking", "fabrication"]),
    MAX_SKILL := 10,
    req_empty := { components := [], blacklisted := false },
    req_add := fun a b =>
      { components := a.components ++ b.components,
        blacklisted := a.blacklisted || b.blacklisted },
    req_scale := fun a n =>
      { components := a.components.map (fun alt => alt.map (fun c => (c.1, c.2 * n))),
        blacklisted := a.blacklisted },
    is_blacklisted := fun a => a.blacklisted,
    get_components := fun a => a.components.map (fun alt => alt.map Prod.fst) }

/-- A catalog with the book template, one blacklisted entry and one ordinary entry. -/
def sample_catalog : String → SampleReq := fun s =>
  if s = "uncraft_book" then { components := [[("paper", 1)]], blacklisted := false }
  else if s = "banned" then { components := [], blacklisted := true }
  else if s = "dough" then { components := [[("flour", 2)]], blacklisted := false }
  else { components := [], blacklisted := false }

/-- A record for `result` with the given requirement expression, otherwise default. -/
def sample_recipe (result : String) (reqs : List (String × Int)) : recipe SampleReq :=
  { recipe.default sample_env with result := result, ident_ := result, reqs := reqs }

/-- A map with a valid record and a record whose result is undefined. -/
def sample_map : StrMap (recipe SampleReq) :=
  [("bread", sample_recipe "bread" [("dough", 3)]),
   ("cake", sample_recipe "cake" [("dough", 1)])]

/-- A map whose only record has a blacklisted requirement. -/
def banned_map : StrMap (recipe SampleReq) :=
  [("bread", sample_recipe "bread" [("banned", 1)])]

/-- A reset dictionary with the sample catalog. -/
def sample_world : World SampleReq :=
  { dict := { recipes := [], uncraft := [], category := [], component := [] },
    requirements_all := sample_catalog, book_recipes := [], debug_log := [] }

/-- The empty inline requirement. -/
def no_inline : SampleReq := { components := [], blacklisted := false }

/-- A definition for "bread" with `skill_used` and the integer form of `decomp_learn`. -/
def decomp_definition : JsonObject SampleReq :=
  { bare_definition "bread" none no_inline with
    skill_used := some "cooking", decomp_learn := some (DecompLearn.level 4) }

/-- An uncraft definition for "bread" that carries an `id_suffix`. -/
def suffixed_uncraft_definition : JsonObject SampleReq :=
  bare_definition "bread" (some "x") no_inline

/-- A first definition for "bread". -/
def first_definition : JsonObject SampleReq :=
  { bare_definition "bread" none no_inline with
    time := some 30, using_ := some (Using.name "dough") }

/-- A second definition for "bread" that carries only the key fields and `time`. -/
def time_only_definition : JsonObject SampleReq :=
  { bare_definition "bread" none no_inline with time := some 50 }

/-- The sample world after loading `first_definition` as a normal recipe. -/
def loaded_once : World SampleReq :=
  (load sample_env sample_world first_definition false).1

/-- The world of `loaded_once` after loading `time_only_definition` as well. -/
def loaded_twice : World SampleReq :=
  (load sample_env loaded_once time_only_definition false).1

/-- The record that `loaded_once` holds under "bread". -/
def bread_once : recipe SampleReq :=
  { sample_recipe "bread" [("dough", 1), ("inline_recipe_bread", 1)] with time := 30 }

/-- Two reversible recipes for "bread", one of them with an `id_suffix`, loaded into
the sample world. -/
def two_bread_world : World SampleReq :=
  load_sequence sample_env sample_world
    [({ bare_definition "bread" none no_inline with
          reversible := some true, time := some 10 }, false),
     ({ bare_definition "bread" (some "_x") no_inline with
          reversible := some true, time := some 20 }, false)]

/-- A reversible recipe for the book "manual", loaded into the sample world. -/
def manual_recipe_world : World SampleReq :=
  load_sequence sample_env sample_world
    [({ bare_definition "manual" none no_inline with
          reversible := some true, time := some 30 }, false)]

/-- A recipe for the book "manual" with `result_mult = 2`, loaded into the sample
world. -/
def manual_mult_world : World SampleReq :=
  load_sequence sample_env sample_world
    [({ bare_definition "manual" none no_inline with result_mult := some 2 }, false)]

/-- A recipe for "bread" with `charges = 3`, loaded into the sample world. -/
def bread_charges_world : World SampleReq :=
  load_sequence sample_env sample_world
    [({ bare_definition "bread" none no_inline with charges := some 3 }, false)]

/-- The record that `two_bread_world` holds under "bread". -/
def bread_first : recipe SampleReq :=
  { sample_recipe "bread" [("inline_recipe_bread", 1)] with reversible := true, time := 10 }

/-- The record that `manual_mult_world` holds under "manual". -/
def manual_mult : recipe SampleReq :=
  { sample_recipe "manual" [("inline_recipe_manual", 1)] with result_mult := 2 }

/-- The record that `bread_charges_world` holds under "bread". -/
def bread_charges : recipe SampleReq :=
  { sample_recipe "bread" [("inline_recipe_bread", 1)] with charges := 3 }

/-- A recipe for "bread" with a byproduct of an undefined item type, and a valid recipe
for "flour", loaded into the sample world. -/
def byproduct_world : World SampleReq :=
  load_sequence sample_env { sample_world with dict := reset sample_world.dict }
    [({ bare_definition "bread" none no_inline with
          category := some "CC_FOOD", byproducts := some [("crumbs", none)] }, false),
     ({ bare_definition "flour" none no_inline with
          category := some "CC_FOOD", using_ := some (Using.name "dough") }, false)]

/-- The record that `byproduct_world` holds under "bread". -/
def bread_crumbs : recipe SampleReq :=
  { sample_recipe "bread" [("inline_recipe_bread", 1)] with
    category := "CC_FOOD", byproducts := [("crumbs", 1)] }

/-- A definition for "flour" that gives a container and `contained = false`. -/
def container_definition : JsonObject SampleReq :=
  { bare_definition "flour" none no_inline with
    contained := some false, container := some "bottle" }

/-- A definition for "bread" that sets several members and gives the integer form of
`decomp_learn` without any `skill_used`. -/
def failing_definition : JsonObject SampleReq :=
  { bare_definition "bread" none no_inline with
    time := some 70, difficulty := some 3, charges := some 2,
    container := some "bottle", using_ := some (Using.name "dough"),
    decomp_learn := some (DecompLearn.level 4) }

/-- A dictionary with one recipe and one uncraft record, and index entries. -/
def sample_dict : recipe_dictionary SampleReq :=
  { recipes := [("bread", bread_once), ("flour", sample_recipe "flour" [])],
    uncraft := [("bread", bread_once)],
    category := [("CC_FOOD", ["bread", "flour"])],
    component := [("flour", ["bread"])] }

/-- A recipe for "bread" that asks for simplified autolearn, loaded into the sample
world. -/
def autolearn_world : World SampleReq :=
  load_sequence sample_env sample_world
    [({ bare_definition "bread" none no_inline with
          difficulty := some 2, skill_used := some "cooking",
          skills_required := some (SkillsRequired.multiple
            [("cooking", 5), ("fabrication", 1)]),
          autolearn := some (Autolearn.flag true) }, false)]

/-- The record that `autolearn_world` holds under "bread". -/
def bread_autolearn : recipe SampleReq :=
  { sample_recipe "bread" [("inline_recipe_bread", 1)] with
    difficulty := 2, skill_used := "cooking",
    required_skills := [("cooking", 5), ("fabrication", 1)], autolearn := true }

/-- An inline requirement of one flour. -/
def flour_inline : SampleReq := { components := [[("flour", 1)]], blacklisted := false }

/-- The record that `two_bread_world` holds under "bread_x". -/
def bread_second : recipe SampleReq :=
  { sample_recipe "bread" [("inline_recipe_bread_x", 1)] with
    ident_ := "bread_x", reversible := true, time := 20 }

/-- Loads, a finalize, a delete_if and further loads on the sample world. -/
def sample_ops : List (Op SampleReq) :=
  [Op.load first_definition false,
   Op.load suffixed_uncraft_definition true,
   Op.load { bare_definition "manual" (some "_x") no_inline with reversible := some true }
     false,
   Op.finalize,
   Op.delete_if (fun r => decide (r.time = 30)),
   Op.load time_only_definition false]


/-! ## Facts about the key order and ordered maps -/

theorem lex_lt_irrefl : ∀ a : List Char, lex_lt a a = false
  | [] => rfl
  | c :: cs => by simp [lex_lt, lex_lt_irrefl cs]

theorem lex_lt_trans : ∀ a b c : List Char,
    lex_lt a b = true → lex_lt b c = true → lex_lt a c = true
  | [], [], _, h, _ => by simp [lex_lt] at h
  | [], _ :: _, [], _, h => by simp [lex_lt] at h
  | [], _ :: _, _ :: _, _, _ => by simp [lex_lt]
  | _ :: _, [], _, h, _ => by simp [lex_lt] at h
  | _ :: _, _ :: _, [], _, h => by simp [lex_lt] at h
  | x :: xs, y :: ys, z :: zs, h1, h2 => by
    have ih := lex_lt_trans xs ys zs
    simp only [lex_lt] at h1 h2 ⊢
    by_cases hxy : x.toNat < y.toNat
    · by_cases hyz : y.toNat < z.toNat
      · have : x.toNat < z.toNat := by omega
        simp [this]
      · simp only [hyz, if_false] at h2
        by_cases hzy : z.toNat < y.toNat
        · simp [hzy] at h2
        · have : x.toNat < z.toNat := by omega
          simp [this]
    · simp only [hxy, if_false] at h1
      by_cases hyx : y.toNat < x.toNat
      · simp [hyx] at h1
      · simp only [hyx, if_false] at h1
        by_cases hyz : y.toNat < z.toNat
        · have : x.toNat < z.toNat := by omega
          simp [this]
        · simp only [hyz, if_false] at h2
          by_cases hzy : z.toNat < y.toNat
          · simp [hzy] at h2
          · simp only [hzy, if_false] at h2
            have h3 : ¬ x.toNat < z.toNat := by omega
            have h4 : ¬ z.toNat < x.toNat := by omega
            simp only [h3, h4, if_false]
            exact ih h1 h2

theorem char_eq_of_toNat_eq (a b : Char) (h : a.toNat = b.toNat) : a = b := by
  have ha := Char.ofNat_toNat a
  have hb := Char.ofNat_toNat b
  rw [← ha, ← hb, h]

theorem lex_lt_connected : ∀ a b : List Char,
    lex_lt a b = false → lex_lt b a = false → a = b
  | [], [], _, _ => rfl
  | [], _ :: _, h, _ => by simp [lex_lt] at h
  | _ :: _, [], _, h => by simp [lex_lt] at h
  | x :: xs, y :: ys, h1, h2 => by
    simp only [lex_lt] at h1 h2
    by_cases hxy : x.toNat < y.toNat
    · simp [hxy] at h1
    · by_cases hyx : y.toNat < x.toNat
      · simp [hyx] at h2
      · simp only [hxy, hyx, if_false] at h1 h2
        have hc : x = y := char_eq_of_toNat_eq x y (by omega)
        rw [hc, lex_lt_connected xs ys h1 h2]

theorem str_lt_irrefl (a : String) : str_lt a a = false := lex_lt_irrefl _

theorem str_lt_trans {a b c : String} (h1 : str_lt a b = true) (h2 : str_lt b c = true) :
    str_lt a c = true := lex_lt_trans _ _ _ h1 h2

theorem str_lt_connected {a b : String} (h1 : str_lt a b = false) (h2 : str_lt b a = false) :
    a = b := by
  have h := lex_lt_connected _ _ h1 h2
  cases a; cases b; simp_all [String.toList]

theorem str_lt_ne {a b : String} (h : str_lt a b = true) : a ≠ b := by
  intro e; rw [e, str_lt_irrefl] at h; exact Bool.noConfusion h

namespace StrMap

variable {β : Type}

theorem find_insert_self (k : String) (v : β) : ∀ m : StrMap β, find k (insert k v m) = some v
  | [] => by simp [insert, find]
  | (k2, v2) :: t => by
    simp only [insert]
    by_cases h1 : str_lt k k2 = true
    · simp [h1, find]
    · by_cases h2 : k = k2
      · subst h2
        simp [h1, find]
      · have h3 : ¬ k2 = k := fun e => h2 e.symm
        simp [h1, h2, h3, find, find_insert_self k v t]

theorem find_insert_ne {k k' : String} (v : β) (h : k ≠ k') :
    ∀ m : StrMap β, find k' (insert k v m) = find k' m
  | [] => by simp [insert, find, h]
  | (k2, v2) :: t => by
    simp only [insert]
    by_cases h1 : str_lt k k2 = true
    · simp [h1, find, h]
    · by_cases h2 : k = k2
      · subst h2
        simp [h1, find, h]
      · simp only [h1, h2, if_false, find, find_insert_ne v h t, Bool.false_eq_true]

theorem find_eq_none_of_lt {k : String} : ∀ m : StrMap β,
    (∀ e ∈ m, str_lt k e.1 = true) → find k m = none
  | [], _ => rfl
  | (k2, v2) :: t, h => by
    have h1 : str_lt k k2 = true := h (k2, v2) (List.mem_cons_self _ _)
    have h2 : ¬ k2 = k := fun e => str_lt_ne h1 e.symm
    simp only [find, h2, if_false]
    exact find_eq_none_of_lt t (fun e he => h e (List.mem_cons_of_mem _ he))

theorem mem_insert {k : String} {v : β} {e : String × β} : ∀ m : StrMap β,
    e ∈ insert k v m → e = (k, v) ∨ e ∈ m
  | [], h => by simp [insert] at h; exact Or.inl h
  | (k2, v2) :: t, h => by
    simp only [insert] at h
    by_cases h1 : str_lt k k2 = true
    · simp only [h1, if_true, List.mem_cons] at h
      rcases h with h | h | h
      · exact Or.inl h
      · exact Or.inr (h ▸ List.mem_cons_self _ _)
      · exact Or.inr (List.mem_cons_of_mem _ h)
    · by_cases h2 : k = k2
      · subst h2
        simp only [h1, if_true, if_false, List.mem_cons, Bool.false_eq_true] at h
        rcases h with h | h
        · exact Or.inl h
        · exact Or.inr (List.mem_cons_of_mem _ h)
      · simp only [h1, h2, if_false, List.mem_cons, Bool.false_eq_true] at h
        rcases h with h | h
        · exact Or.inr (h ▸ List.mem_cons_self _ _)
        · rcases mem_insert t h with h | h
          · exact Or.inl h
          · exact Or.inr (List.mem_cons_of_mem _ h)

theorem WF_nil : WF ([] : StrMap β) := List.Pairwise.nil

theorem WF_tail {e : String × β} {t : StrMap β} (h : WF (e :: t)) : WF t :=
  (List.pairwise_cons.mp h).2

theorem WF_head {e : String × β} {t : StrMap β} (h : WF (e :: t)) :
    ∀ x ∈ t, str_lt e.1 x.1 = true :=
  (List.pairwise_cons.mp h).1

theorem WF_insert (k : String) (v : β) : ∀ m : StrMap β, WF m → WF (insert k v m)
  | [], _ => by simp [insert, WF]
  | (k2, v2) :: t, h => by
    have ht := WF_tail h
    have hh := WF_head h
    simp only [insert]
    by_cases h1 : str_lt k k2 = true
    · simp only [h1, if_true]
      refine List.pairwise_cons.mpr ⟨?_, h⟩
      intro x hx
      rcases List.mem_cons.mp hx with hx | hx
      · rw [hx]; exact h1
      · exact str_lt_trans h1 (hh x hx)
    · by_cases h2 : k = k2
      · subst h2
        simp only [h1, if_true, if_false, Bool.false_eq_true]
        exact List.pairwise_cons.mpr ⟨hh, ht⟩
      · simp only [h1, h2, if_false, Bool.false_eq_true]
        refine List.pairwise_cons.mpr ⟨?_, WF_insert k v t ht⟩
        intro x hx
        rcases mem_insert t hx with hx | hx
        · rw [hx]
          cases h3 : str_lt k2 k with
          | true => rfl
          | false =>
            exact absurd (str_lt_connected (by simpa using h1) h3) h2
        · exact hh x hx

theorem find_cons_of_WF {k : String} {v : β} {t : StrMap β} (h : WF ((k, v) :: t)) :
    find k t = none :=
  find_eq_none_of_lt t (WF_head h)

theorem find_some_mem {k : String} {v : β} : ∀ m : StrMap β, find k m = some v → (k, v) ∈ m
  | [], h => by simp [find] at h
  | (k2, v2) :: t, h => by
    simp only [find] at h
    by_cases h1 : k2 = k
    · simp only [h1, if_true, Option.some.injEq] at h
      rw [h1, h]; exact List.mem_cons_self _ _
    · simp only [h1, if_false] at h
      exact List.mem_cons_of_mem _ (find_some_mem t h)

theorem find_none_iff {k : String} : ∀ m : StrMap β, find k m = none ↔ ∀ e ∈ m, e.1 ≠ k
  | [] => by simp [find]
  | (k2, v2) :: t => by
    simp only [find]
    by_cases h1 : k2 = k
    · simp [h1]
    · simp [h1, find_none_iff t]

theorem mem_find_of_WF {k : String} {v : β} : ∀ m : StrMap β, WF m → (k, v) ∈ m →
    find k m = some v
  | [], _, h => by simp at h
  | (k2, v2) :: t, hw, h => by
    rcases List.mem_cons.mp h with h | h
    · cases h; simp [find]
    · have h1 : str_lt k2 k = true := WF_head hw (k, v) h
      have h2 : ¬ k2 = k := str_lt_ne h1
      simp only [find, h2, if_false]
      exact mem_find_of_WF t (WF_tail hw) h

end StrMap

/-! ## Stage A -/

section StageA

variable {Req : Type}

theorem accumulate_reqs_eq_foldl (env : Env Req) (catalog : String → Req) :
    ∀ (reqs : List (String × Int)) (acc : Req),
      accumulate_reqs env catalog reqs acc =
        reqs.foldl (fun a term => env.req_add a (env.req_scale (catalog term.1) term.2)) acc
  | [], _ => rfl
  | t :: rest, acc => by
    simp only [accumulate_reqs, List.foldl_cons]
    exact accumulate_reqs_eq_foldl env catalog rest _

theorem accumulate_reqs_eq_weighted_sum (env : Env Req) (catalog : String → Req)
    (reqs : List (String × Int)) :
    accumulate_reqs env catalog reqs env.req_empty = weighted_sum env catalog reqs :=
  accumulate_reqs_eq_foldl env catalog reqs env.req_empty

theorem entry_result_of_valid (env : Env Req) (catalog : String → Req) (id : String)
    (r : recipe Req) (h : stage_a_valid env catalog r) :
    entry_result env catalog id r =
      some { r with requirements_ := weighted_sum env catalog r.reqs } := by
  obtain ⟨h1, h2, h3, h4, h5, h6, h7, h8, h9, h10⟩ := h
  unfold entry_result finalize_entry
  simp only [accumulate_reqs_eq_weighted_sum, h1, h2, h7, Bool.false_eq_true, if_false,
    Bool.not_true]
  have e3 : (decide (r.charges ≥ 0) && !env.count_by_charges r.result) = false := by
    rcases h3 with h | h
    · have : ¬ r.charges ≥ 0 := by omega
      simp [this]
    · simp [h]
  have e5 : r.byproducts.any (fun bp => !env.type_is_defined bp.1) = false := by
    rw [List.any_eq_false]
    intro x hx
    simp [h5 x hx]
  have e6 : (!r.contained && r.container != "null") = false := by
    rcases h6 with h | h
    · simp [h]
    · simp [h]
  have e8 : (skill_set env r.skill_used && !env.skill_is_valid r.skill_used) = false := by
    rcases h8 with h | h
    · simp [skill_set, h]
    · simp [h]
  have e9 : r.required_skills.any (fun sk => !env.skill_is_valid sk.1) = false := by
    rw [List.any_eq_false]
    intro x hx
    simp [h9 x hx]
  have e10 : r.booksets.any (fun bk => !(env.find_type bk.1).book) = false := by
    rw [List.any_eq_false]
    intro x hx
    simp [h10 x hx]
  rcases h4 with h | h <;> simp [e3, e5, e6, e8, e9, e10, h]

theorem entry_result_some (env : Env Req) (catalog : String → Req) (id : String)
    (r r2 : recipe Req) (h : entry_result env catalog id r = some r2) :
    stage_a_valid env catalog r ∧
      r2 = { r with requirements_ := weighted_sum env catalog r.reqs } := by
  unfold entry_result finalize_entry at h
  simp only [accumulate_reqs_eq_weighted_sum] at h
  split_ifs at h with c1 c2 c3 c4 c5 c6 c7 c8 c9
  simp only [Option.some.injEq] at h
  refine ⟨⟨?_, ?_, ?_, ?_, ?_, ?_, ?_, ?_, ?_, ?_⟩, h.symm⟩
  · simpa using c1
  · simpa using c2
  · by_cases hc : r.charges < 0
    · exact Or.inl hc
    · have : r.charges ≥ 0 := by omega
      simp [this] at c3
      exact Or.inr c3
  · by_cases hc : r.result_mult = 1
    · exact Or.inl hc
    · simp [hc] at c4
      exact Or.inr c4
  · intro bp hbp
    have := c5
    simp only [Bool.not_eq_true, List.any_eq_false] at this
    simpa using this bp hbp
  · by_cases hc : r.contained = true
    · exact Or.inl hc
    · simp [hc] at c6
      exact Or.inr c6
  · simpa using c7
  · by_cases hc : r.skill_used = env.skill_null
    · exact Or.inl hc
    · simp [skill_set, hc] at c8
      exact Or.inr c8.1
  · intro sk hsk
    simp only [Bool.or_eq_true, not_or, Bool.not_eq_true, List.any_eq_false] at c8
    simpa using c8.2 sk hsk
  · intro bk hbk
    have := c9
    simp only [Bool.not_eq_true, List.any_eq_false] at this
    simpa using this bk hbk

theorem finalize_internal_find_none (env : Env Req) (catalog : String → Req) (k : String) :
    ∀ m : StrMap (recipe Req), StrMap.find k m = none →
      StrMap.find k (finalize_internal env catalog m).1 = none
  | [], _ => rfl
  | (id, r0) :: rest, h => by
    simp only [StrMap.find] at h
    by_cases hk : id = k
    · simp [hk] at h
    · simp only [hk, if_false] at h
      have ih := finalize_internal_find_none env catalog k rest h
      simp only [finalize_internal]
      cases finalize_entry env catalog id r0 with
      | erased d => exact ih
      | kept r => simp only [StrMap.find, hk, if_false]; exact ih

theorem finalize_internal_find (env : Env Req) (catalog : String → Req) (k : String) :
    ∀ m : StrMap (recipe Req), StrMap.WF m →
      StrMap.find k (finalize_internal env catalog m).1 =
        (StrMap.find k m).bind (entry_result env catalog k)
  | [], _ => rfl
  | (id, r0) :: rest, hw => by
    have ih := finalize_internal_find env catalog k rest (StrMap.WF_tail hw)
    by_cases hk : id = k
    · subst hk
      have hn : StrMap.find id rest = none := StrMap.find_cons_of_WF hw
      have hn2 := finalize_internal_find_none env catalog id rest hn
      have e : (StrMap.find id ((id, r0) :: rest)).bind (entry_result env catalog id) =
          entry_result env catalog id r0 := by simp [StrMap.find]
      rw [e]
      simp only [finalize_internal, entry_result]
      cases hv : finalize_entry env catalog id r0 with
      | erased d => exact hn2
      | kept r => simp [StrMap.find]
    · simp only [finalize_internal, StrMap.find, hk, if_false]
      rw [← ih]
      cases hv : finalize_entry env catalog id r0 with
      | erased d => rfl
      | kept r => simp [StrMap.find, hk]

theorem finalize_internal_mem (env : Env Req) (catalog : String → Req) (e : String × recipe Req) :
    ∀ m : StrMap (recipe Req), e ∈ (finalize_internal env catalog m).1 →
      ∃ r, (e.1, r) ∈ m ∧ entry_result env catalog e.1 r = some e.2
  | [], h => by simp [finalize_internal] at h
  | (id, r0) :: rest, h => by
    simp only [finalize_internal] at h
    cases hv : finalize_entry env catalog id r0 with
    | erased d =>
      rw [hv] at h
      obtain ⟨r, hr, hr2⟩ := finalize_internal_mem env catalog e rest h
      exact ⟨r, List.mem_cons_of_mem _ hr, hr2⟩
    | kept r =>
      rw [hv] at h
      rcases List.mem_cons.mp h with h | h
      · subst h
        exact ⟨r0, List.mem_cons_self _ _, by simp [entry_result, hv]⟩
      · obtain ⟨r1, hr, hr2⟩ := finalize_internal_mem env catalog e rest h
        exact ⟨r1, List.mem_cons_of_mem _ hr, hr2⟩

theorem finalize_internal_WF (env : Env Req) (catalog : String → Req) :
    ∀ m : StrMap (recipe Req), StrMap.WF m → StrMap.WF (finalize_internal env catalog m).1
  | [], _ => StrMap.WF_nil
  | (id, r0) :: rest, hw => by
    have ih := finalize_internal_WF env catalog rest (StrMap.WF_tail hw)
    simp only [finalize_internal]
    cases finalize_entry env catalog id r0 with
    | erased d => exact ih
    | kept r =>
      refine List.pairwise_cons.mpr ⟨?_, ih⟩
      intro x hx
      obtain ⟨r1, hr, _⟩ := finalize_internal_mem env catalog x rest hx
      exact StrMap.WF_head hw (x.1, r1) hr

/-- C1: for a map handed to `finalize_internal` and a key `k`, `k` is still a key
afterwards exactly when the record stored under `k` meets all ten survival
conditions; the surviving record is the input record with only `requirements_`
replaced; a key absent before is absent afterwards. -/
theorem C1_stage_a_keeps_exactly_the_valid (env : Env Req) (catalog : String → Req)
    (m : StrMap (recipe Req)) (hm : StrMap.WF m) (k : String) :
    ((∃ r2, StrMap.find k (finalize_internal env catalog m).1 = some r2) ↔
        ∃ r, StrMap.find k m = some r ∧ stage_a_valid env catalog r) ∧
      (∀ r2, StrMap.find k (finalize_internal env catalog m).1 = some r2 →
        ∃ r, StrMap.find k m = some r ∧ r2 = { r with requirements_ := r2.requirements_ }) ∧
      (StrMap.find k m = none → StrMap.find k (finalize_internal env catalog m).1 = none) := by
  have hf := finalize_internal_find env catalog k m hm
  refine ⟨⟨?_, ?_⟩, ?_, ?_⟩
  · rintro ⟨r2, h2⟩
    rw [hf] at h2
    cases hr : StrMap.find k m with
    | none => rw [hr] at h2; simp at h2
    | some r =>
      rw [hr] at h2
      exact ⟨r, rfl, (entry_result_some env catalog k r r2 h2).1⟩
  · rintro ⟨r, hr, hv⟩
    rw [hf, hr]
    exact ⟨_, entry_result_of_valid env catalog k r hv⟩
  · intro r2 h2
    rw [hf] at h2
    cases hr : StrMap.find k m with
    | none => rw [hr] at h2; simp at h2
    | some r =>
      rw [hr] at h2
      have h3 := (entry_result_some env catalog k r r2 h2).2
      refine ⟨r, rfl, ?_⟩
      rw [h3]
  · exact finalize_internal_find_none env catalog k m

theorem C1_witness :
    StrMap.WF sample_map ∧
    (((∃ r2, StrMap.find "bread" (finalize_internal sample_env sample_catalog sample_map).1
          = some r2) ↔
        ∃ r, StrMap.find "bread" sample_map = some r ∧
          stage_a_valid sample_env sample_catalog r) ∧
      (∀ r2, StrMap.find "bread" (finalize_internal sample_env sample_catalog sample_map).1
          = some r2 →
        ∃ r, StrMap.find "bread" sample_map = some r ∧
          r2 = { r with requirements_ := r2.requirements_ }) ∧
      (StrMap.find "bread" sample_map = none →
        StrMap.find "bread" (finalize_internal sample_env sample_catalog sample_map).1
          = none)) :=
  ⟨by decide,
   C1_stage_a_keeps_exactly_the_valid sample_env sample_catalog sample_map (by decide) "bread"⟩

/-- C2: a record found in the map after `finalize_internal` (one that passed Stage A)
has as resolved requirements the left-to-right sum, from the empty requirement set,
of `catalog[ref] * mult` over its `reqs` list, which is the `reqs` list of the input
record under the same key. -/
theorem C2_resolved_requirements_are_the_weighted_sum (env : Env Req)
    (catalog : String → Req) (m : StrMap (recipe Req)) (k : String) (r2 : recipe Req)
    (h : StrMap.find k (finalize_internal env catalog m).1 = some r2) :
    r2.requirements_ =
        r2.reqs.foldl (fun acc term => env.req_add acc (env.req_scale (catalog term.1) term.2))
          env.req_empty ∧
      ∃ r, (k, r) ∈ m ∧ r.reqs = r2.reqs ∧ stage_a_valid env catalog r := by
  obtain ⟨r, hr, he⟩ := finalize_internal_mem env catalog (k, r2) m (StrMap.find_some_mem _ h)
  obtain ⟨hv, h3⟩ := entry_result_some env catalog k r r2 he
  refine ⟨?_, r, hr, ?_, hv⟩
  · rw [h3]; rfl
  · rw [h3]

theorem C2_witness :
    StrMap.find "bread" (finalize_internal sample_env sample_catalog sample_map).1 =
        some { sample_recipe "bread" [("dough", 3)] with
          requirements_ := { components := [[("flour", 6)]], blacklisted := false } } ∧
      ({ sample_recipe "bread" [("dough", 3)] with
          requirements_ := { components := [[("flour", 6)]], blacklisted := false } }
          : recipe SampleReq).requirements_ =
        [("dough", (3 : Int))].foldl
          (fun acc term =>
            sample_env.req_add acc (sample_env.req_scale (sample_catalog term.1) term.2))
          sample_env.req_empty :=
  ⟨by decide,
   (C2_resolved_requirements_are_the_weighted_sum sample_env sample_catalog sample_map
      "bread" _ (by decide)).1⟩

theorem finalize_internal_log (env : Env Req) (catalog : String → Req) :
    ∀ m : StrMap (recipe Req),
      (finalize_internal env catalog m).2 =
        (m.map (fun e => entry_diagnostics env catalog e.1 e.2)).flatten
  | [] => rfl
  | (id, r0) :: rest => by
    have ih := finalize_internal_log env catalog rest
    rw [List.map_cons, List.flatten_cons, ← ih]
    simp only [finalize_internal, entry_diagnostics]
    cases hv : finalize_entry env catalog id r0 with
    | erased d => rfl
    | kept r => rfl

theorem entry_diagnostics_of_kept (env : Env Req) (catalog : String → Req) (id : String)
    (r r2 : recipe Req) (h : entry_result env catalog id r = some r2) :
    entry_diagnostics env catalog id r = [] := by
  unfold entry_result at h
  unfold entry_diagnostics
  cases hv : finalize_entry env catalog id r with
  | erased d => rw [hv] at h; simp at h
  | kept r3 => rfl

theorem entry_diagnostics_of_blacklisted (env : Env Req) (catalog : String → Req)
    (id : String) (r : recipe Req)
    (h : env.is_blacklisted (weighted_sum env catalog r.reqs) = true) :
    entry_result env catalog id r = none ∧ entry_diagnostics env catalog id r = [] := by
  unfold entry_result entry_diagnostics finalize_entry
  simp only [accumulate_reqs_eq_weighted_sum, h, if_true, and_self]

theorem entry_diagnostics_of_invalid (env : Env Req) (catalog : String → Req)
    (id : String) (r : recipe Req)
    (hb : env.is_blacklisted (weighted_sum env catalog r.reqs) = false)
    (h : entry_result env catalog id r = none) :
    ∃ what, entry_diagnostics env catalog id r = ["Recipe " ++ id ++ what] := by
  unfold entry_result finalize_entry at h
  unfold entry_diagnostics finalize_entry
  simp only [accumulate_reqs_eq_weighted_sum, hb, Bool.false_eq_true, if_false] at h ⊢
  split_ifs at h ⊢ <;> exact ⟨_, rfl⟩

/-- C8 as amended: the diagnostics of `finalize_internal` are, in map order, those of
its entries; a kept record yields none, a record removed because its resolved
requirements are blacklisted yields none, and a record removed by any of the other
conditions yields exactly one diagnostic, which carries the record's key. -/
theorem C8_one_diagnostic_per_invalid_record (env : Env Req) (catalog : String → Req)
    (m : StrMap (recipe Req)) :
    (finalize_internal env catalog m).2 =
        (m.map (fun e => entry_diagnostics env catalog e.1 e.2)).flatten ∧
      ∀ (id : String) (r : recipe Req),
        (entry_result env catalog id r ≠ none → entry_diagnostics env catalog id r = []) ∧
        (env.is_blacklisted (weighted_sum env catalog r.reqs) = true →
          entry_result env catalog id r = none ∧ entry_diagnostics env catalog id r = []) ∧
        (env.is_blacklisted (weighted_sum env catalog r.reqs) = false →
          entry_result env catalog id r = none →
          ∃ what, entry_diagnostics env catalog id r = ["Recipe " ++ id ++ what]) := by
  refine ⟨finalize_internal_log env catalog m, ?_⟩
  intro id r
  refine ⟨?_, entry_diagnostics_of_blacklisted env catalog id r,
    entry_diagnostics_of_invalid env catalog id r⟩
  intro h
  cases hr : entry_result env catalog id r with
  | none => exact absurd hr h
  | some r2 => exact entry_diagnostics_of_kept env catalog id r r2 hr

theorem C8_witness :
    (finalize_internal sample_env sample_catalog sample_map).2 =
        ["Recipe cake defines invalid result"] ∧
      entry_result sample_env sample_catalog "cake" (sample_recipe "cake" [("dough", 1)]) =
        none ∧
      ∃ what, entry_diagnostics sample_env sample_catalog "cake"
        (sample_recipe "cake" [("dough", 1)]) = ["Recipe " ++ "cake" ++ what] :=
  ⟨by decide, by decide,
   ((C8_one_diagnostic_per_invalid_record sample_env sample_catalog sample_map).2 "cake"
      (sample_recipe "cake" [("dough", 1)])).2.2 (by decide) (by decide)⟩

/-- C8 as stated fails: a record whose resolved requirements are blacklisted is
removed by `finalize_internal` without any diagnostic. -/
theorem C8_counterexample :
    (∃ r, StrMap.find "bread" banned_map = some r) ∧
      StrMap.find "bread" (finalize_internal sample_env sample_catalog banned_map).1 = none ∧
      (finalize_internal sample_env sample_catalog banned_map).2 = [] := by
  refine ⟨⟨_, rfl⟩, ?_, ?_⟩ <;> decide

end StageA

/-! ## Loader -/

section Loader

variable {Req : Type}

theorem find_store (d : recipe_dictionary Req) (uncraft : Bool) (key : String)
    (r : recipe Req) :
    StrMap.find key (target_map (store d uncraft key r) uncraft) = some r := by
  cases uncraft <;> simp [store, target_map, StrMap.find_insert_self]

theorem find_store_ne (d : recipe_dictionary Req) (uncraft : Bool) (key k : String)
    (r : recipe Req) (h : key ≠ k) :
    StrMap.find k (target_map (store d uncraft key r) uncraft) =
      StrMap.find k (target_map d uncraft) := by
  cases uncraft <;> simp [store, target_map, StrMap.find_insert_ne _ h]

theorem load_head_ident (env : Env Req) (jo : JsonObject Req) (uncraft : Bool)
    (r : recipe Req) :
    (load_head env jo uncraft r).ident_ = jo.result ++ jo.id_suffix.getD "" := by
  unfold load_head
  rcases uncraft with _ | _ <;> rcases jo.batch_time_factors with _ | _ <;>
    rcases jo.autolearn with _ | (_ | _) <;>
    rcases jo.skills_required with _ | (_ | _ | _) <;> rfl

theorem load_head_skill_used (env : Env Req) (jo : JsonObject Req) (uncraft : Bool)
    (r : recipe Req) :
    (load_head env jo uncraft r).skill_used = jo.skill_used.getD r.skill_used := by
  unfold load_head assign
  rcases uncraft with _ | _ <;> rcases jo.batch_time_factors with _ | _ <;>
    rcases jo.autolearn with _ | (_ | _) <;>
    rcases jo.skills_required with _ | (_ | _ | _) <;>
    rcases jo.skill_used with _ | _ <;> rfl

theorem load_head_reqs (env : Env Req) (jo : JsonObject Req) (uncraft : Bool)
    (r : recipe Req) :
    (load_head env jo uncraft r).reqs = r.reqs := by
  unfold load_head
  rcases uncraft with _ | _ <;> rcases jo.batch_time_factors with _ | _ <;>
    rcases jo.autolearn with _ | (_ | _) <;>
    rcases jo.skills_required with _ | (_ | _ | _) <;> rfl

theorem load_eq_of_ok (env : Env Req) (w : World Req) (jo : JsonObject Req) (uncraft : Bool)
    (r1 : recipe Req)
    (h : load_decomp_learn env jo (load_head env jo uncraft (target_record env w.dict jo uncraft))
      = Except.ok r1) :
    load env w jo uncraft =
      ({ w with
          dict := store w.dict uncraft (load_key jo uncraft)
            (load_tail jo uncraft ("inline_recipe_" ++ r1.ident_) r1),
          requirements_all :=
            load_requirement w.requirements_all jo ("inline_recipe_" ++ r1.ident_) }, none) := by
  unfold load
  simp only [h]

theorem load_eq_of_error (env : Env Req) (w : World Req) (jo : JsonObject Req)
    (uncraft : Bool) (msg : String) (r1 : recipe Req)
    (h : load_decomp_learn env jo (load_head env jo uncraft (target_record env w.dict jo uncraft))
      = Except.error (msg, r1)) :
    load env w jo uncraft =
      ({ w with dict := store w.dict uncraft (load_key jo uncraft) r1 }, some msg) := by
  unfold load
  simp only [h]

theorem load_decomp_learn_cases (env : Env Req) (jo : JsonObject Req) (r : recipe Req) :
    (jo.decomp_learn = none ∧ load_decomp_learn env jo r = Except.ok r) ∨
    (∃ n, jo.decomp_learn = some (DecompLearn.level n) ∧ r.skill_used = env.skill_null ∧
      load_decomp_learn env jo r =
        Except.error ("decomp_learn specified with no skill_used",
          { r with learn_by_disassembly := [] })) ∨
    (∃ n, jo.decomp_learn = some (DecompLearn.level n) ∧ r.skill_used ≠ env.skill_null ∧
      load_decomp_learn env jo r =
        Except.ok { r with learn_by_disassembly := [(r.skill_used, n)] }) ∨
    (∃ l, jo.decomp_learn = some (DecompLearn.levels l) ∧
      load_decomp_learn env jo r =
        Except.ok { r with learn_by_disassembly := assign_pairs l [] }) ∨
    (jo.decomp_learn = some DecompLearn.other ∧
      load_decomp_learn env jo r = Except.ok { r with learn_by_disassembly := [] }) := by
  unfold load_decomp_learn
  rcases hd : jo.decomp_learn with _ | (n | l | _)
  · exact Or.inl ⟨rfl, rfl⟩
  · by_cases hs : r.skill_used = env.skill_null
    · refine Or.inr (Or.inl ⟨n, rfl, hs, ?_⟩)
      simp [skill_set, hs]
    · refine Or.inr (Or.inr (Or.inl ⟨n, rfl, hs, ?_⟩))
      simp [skill_set, hs, StrMap.insert]
  · exact Or.inr (Or.inr (Or.inr (Or.inl ⟨l, rfl, rfl⟩)))
  · exact Or.inr (Or.inr (Or.inr (Or.inr ⟨rfl, rfl⟩)))

theorem load_tail_learn (jo : JsonObject Req) (uncraft : Bool) (req_id : String)
    (r : recipe Req) :
    (load_tail jo uncraft req_id r).learn_by_disassembly = r.learn_by_disassembly := by
  unfold load_tail
  rcases uncraft with _ | _ <;> rcases jo.byproducts with _ | _ <;>
    rcases jo.book_learn with _ | _ <;> rcases jo.using_ with _ | (_ | _) <;> rfl

theorem load_tail_reqs (jo : JsonObject Req) (uncraft : Bool) (req_id : String)
    (r : recipe Req) :
    (load_tail jo uncraft req_id r).reqs = using_base jo.using_ r.reqs ++ [(req_id, 1)] := by
  unfold load_tail using_base
  rcases uncraft with _ | _ <;> rcases jo.byproducts with _ | _ <;>
    rcases jo.book_learn with _ | _ <;> rcases jo.using_ with _ | (_ | _) <;> rfl

namespace StrMap

variable {β : Type}

theorem find_append (k : String) : ∀ a b : StrMap β,
    find k (a ++ b) = match find k a with
      | some v => some v
      | none => find k b
  | [], _ => rfl
  | (k2, v2) :: t, b => by
    by_cases h : k2 = k
    · simp [find, h]
    · simp only [List.cons_append, find, h, if_false]
      exact find_append k t b

theorem find_iff_mem_of_nodup {k : String} {v : β} : ∀ m : StrMap β,
    (m.map Prod.fst).Nodup → (find k m = some v ↔ (k, v) ∈ m)
  | [], _ => by simp [find]
  | (k2, v2) :: t, hn => by
    simp only [List.map_cons, List.nodup_cons] at hn
    have ih := find_iff_mem_of_nodup (k := k) (v := v) t hn.2
    by_cases h : k2 = k
    · subst h
      simp only [find, if_true, Option.some.injEq, List.mem_cons, Prod.mk.injEq, true_and]
      constructor
      · intro e; exact Or.inl e.symm
      · rintro (e | e)
        · exact e.symm
        · exact absurd (List.mem_map_of_mem Prod.fst e) hn.1
    · simp only [find, h, if_false, ih, List.mem_cons, Prod.mk.injEq]
      constructor
      · intro e; exact Or.inr e
      · rintro (e | e)
        · exact absurd e.1.symm h
        · exact e

end StrMap

theorem find_assign_pairs (s : String) : ∀ (l : List (String × Int)) (m : StrMap Int),
    StrMap.find s (assign_pairs l m) = match StrMap.find s l.reverse with
      | some v => some v
      | none => StrMap.find s m
  | [], _ => rfl
  | p :: l, m => by
    have ih := find_assign_pairs s l (StrMap.insert p.1 p.2 m)
    have e : assign_pairs (p :: l) m = assign_pairs l (StrMap.insert p.1 p.2 m) := rfl
    rw [e, ih, List.reverse_cons, StrMap.find_append]
    cases StrMap.find s l.reverse with
    | some v => rfl
    | none =>
      by_cases h : p.1 = s
      · subst h
        simp [StrMap.find, StrMap.find_insert_self]
      · simp [StrMap.find, h, StrMap.find_insert_ne _ h]

/-- C9: `load` throws "decomp_learn specified with no skill_used" exactly when
`decomp_learn` is an integer and the target record's `skill_used`, after the
definition's own `skill_used` member has been applied, is unset (no other error
exists); after a successful load the integer form leaves `learn_by_disassembly`
equal to the single entry `skill_used -> n`, and the list form leaves exactly the
listed pairs (for a skill listed more than once, its last pair), whatever the
record held before. -/
theorem C9_decomp_learn_error_and_content (env : Env Req) (w : World Req)
    (jo : JsonObject Req) (uncraft : Bool) :
    ((load env w jo uncraft).2 = some "decomp_learn specified with no skill_used" ↔
        ∃ n, jo.decomp_learn = some (DecompLearn.level n) ∧
          jo.skill_used.getD (target_record env w.dict jo uncraft).skill_used
            = env.skill_null) ∧
      ((load env w jo uncraft).2 = none ∨
        (load env w jo uncraft).2 = some "decomp_learn specified with no skill_used") ∧
      (∀ n, jo.decomp_learn = some (DecompLearn.level n) → (load env w jo uncraft).2 = none →
        ∃ r, StrMap.find (load_key jo uncraft)
            (target_map (load env w jo uncraft).1.dict uncraft) = some r ∧
          r.learn_by_disassembly =
            [(jo.skill_used.getD (target_record env w.dict jo uncraft).skill_used, n)]) ∧
      (∀ l, jo.decomp_learn = some (DecompLearn.levels l) →
        (load env w jo uncraft).2 = none ∧
        ∃ r, StrMap.find (load_key jo uncraft)
            (target_map (load env w jo uncraft).1.dict uncraft) = some r ∧
          (∀ s, StrMap.find s r.learn_by_disassembly = StrMap.find s l.reverse) ∧
          ((l.map Prod.fst).Nodup →
            ∀ s lvl, StrMap.find s r.learn_by_disassembly = some lvl ↔ (s, lvl) ∈ l)) := by
  have hsu := load_head_skill_used env jo uncraft (target_record env w.dict jo uncraft)
  rcases load_decomp_learn_cases env jo
      (load_head env jo uncraft (target_record env w.dict jo uncraft)) with
    ⟨hd, hl⟩ | ⟨n, hd, hs, hl⟩ | ⟨n, hd, hs, hl⟩ | ⟨l, hd, hl⟩ | ⟨hd, hl⟩
  · have e := load_eq_of_ok env w jo uncraft _ hl
    rw [e]
    simp [hd]
  · have e := load_eq_of_error env w jo uncraft _ _ hl
    rw [e]
    rw [hsu] at hs
    refine ⟨⟨fun _ => ⟨n, hd, hs⟩, fun _ => rfl⟩, Or.inr rfl, ?_, ?_⟩
    · intro _ _ h2; simp at h2
    · intro l h2; rw [hd] at h2; simp at h2
  · have e := load_eq_of_ok env w jo uncraft _ hl
    rw [e]
    rw [hsu] at hs
    refine ⟨⟨fun h => by simp at h, ?_⟩, Or.inl rfl, ?_, ?_⟩
    · rintro ⟨n2, _, h2⟩; exact absurd h2 hs
    · intro n2 h2 _
      rw [hd] at h2
      simp only [Option.some.injEq, DecompLearn.level.injEq] at h2
      refine ⟨_, find_store _ _ _ _, ?_⟩
      rw [load_tail_learn, ← hsu, ← h2]
    · intro l h2; rw [hd] at h2; simp at h2
  · have e := load_eq_of_ok env w jo uncraft _ hl
    rw [e]
    refine ⟨⟨fun h => by simp at h, ?_⟩, Or.inl rfl, ?_, ?_⟩
    · rintro ⟨n2, h2, _⟩; rw [hd] at h2; simp at h2
    · intro n2 h2; rw [hd] at h2; simp at h2
    · intro l2 h2
      rw [hd] at h2
      simp only [Option.some.injEq, DecompLearn.levels.injEq] at h2
      subst h2
      refine ⟨rfl, _, find_store _ _ _ _, ?_, ?_⟩
      · intro s
        rw [load_tail_learn]
        simp only []
        rw [find_assign_pairs]
        cases StrMap.find s l.reverse <;> rfl
      · intro hn s lvl
        rw [load_tail_learn]
        simp only []
        rw [find_assign_pairs]
        have hn2 : (l.reverse.map Prod.fst).Nodup := by
          rw [List.map_reverse]; exact List.nodup_reverse.mpr hn
        have h3 := StrMap.find_iff_mem_of_nodup (k := s) (v := lvl) l.reverse hn2
        rw [List.mem_reverse] at h3
        rw [← h3]
        cases StrMap.find s l.reverse <;> simp [StrMap.find]
  · have e := load_eq_of_ok env w jo uncraft _ hl
    rw [e]
    simp [hd]

theorem C9_witness :
    (load sample_env sample_world decomp_definition false).2 = none ∧
      ∃ r, StrMap.find (load_key decomp_definition false)
          (target_map (load sample_env sample_world decomp_definition false).1.dict false)
            = some r ∧
        r.learn_by_disassembly =
          [(decomp_definition.skill_used.getD
              (target_record sample_env sample_world.dict decomp_definition false).skill_used,
            4)] :=
  ⟨by decide,
   (C9_decomp_learn_error_and_content sample_env sample_world decomp_definition false).2.2.1
     4 (by decide) (by decide)⟩

theorem load_decomp_learn_ok (env : Env Req) (jo : JsonObject Req) (r r1 : recipe Req)
    (h : load_decomp_learn env jo r = Except.ok r1) :
    ∃ lbd, r1 = { r with learn_by_disassembly := lbd } := by
  rcases load_decomp_learn_cases env jo r with
    ⟨_, hl⟩ | ⟨n, _, _, hl⟩ | ⟨n, _, _, hl⟩ | ⟨l, _, hl⟩ | ⟨_, hl⟩ <;>
    rw [hl] at h
  · exact ⟨r.learn_by_disassembly, by cases h; rfl⟩
  · cases h
  · exact ⟨_, by cases h; rfl⟩
  · exact ⟨_, by cases h; rfl⟩
  · exact ⟨_, by cases h; rfl⟩

theorem load_decomp_learn_frame (env : Env Req) (jo : JsonObject Req) (r r1 : recipe Req)
    (h : load_decomp_learn env jo r = Except.ok r1) :
    r1.ident_ = r.ident_ ∧ r1.reqs = r.reqs := by
  obtain ⟨lbd, e⟩ := load_decomp_learn_ok env jo r r1 h
  rw [e]
  exact ⟨rfl, rfl⟩

theorem load_ok_of_no_error (env : Env Req) (w : World Req) (jo : JsonObject Req)
    (uncraft : Bool) (h : (load env w jo uncraft).2 = none) :
    ∃ r1, load_decomp_learn env jo
        (load_head env jo uncraft (target_record env w.dict jo uncraft)) = Except.ok r1 := by
  cases hl : load_decomp_learn env jo
      (load_head env jo uncraft (target_record env w.dict jo uncraft)) with
  | error e =>
    obtain ⟨msg, r1⟩ := e
    rw [load_eq_of_error env w jo uncraft msg r1 hl] at h
    simp at h
  | ok r1 => exact ⟨r1, rfl⟩

theorem load_tail_ident (jo : JsonObject Req) (uncraft : Bool) (req_id : String)
    (r : recipe Req) :
    (load_tail jo uncraft req_id r).ident_ = r.ident_ := by
  unfold load_tail
  rcases uncraft with _ | _ <;> rcases jo.byproducts with _ | _ <;>
    rcases jo.book_learn with _ | _ <;> rcases jo.using_ with _ | (_ | _) <;> rfl

/-- C10 as amended: after a successful load the record stored under the key has
`reqs = base ++ [(N, 1)]` with `N = "inline_recipe_" ++ ident`, where `ident` is
`result + id_suffix` (the key itself for a normal recipe and for an uncraft
definition without `id_suffix`), `base` is the prior list, `[(s, 1)]` or the listed
pairs according to the form of `using`, and the catalog holds the definition's inline
requirement under `N`; `reqs` is not empty. -/
theorem C10_reqs_after_load (env : Env Req) (w : World Req) (jo : JsonObject Req)
    (uncraft : Bool) (h : (load env w jo uncraft).2 = none) :
    ∃ r, StrMap.find (load_key jo uncraft)
        (target_map (load env w jo uncraft).1.dict uncraft) = some r ∧
      r.ident_ = jo.result ++ jo.id_suffix.getD "" ∧
      r.reqs = using_base jo.using_ (target_record env w.dict jo uncraft).reqs ++
        [("inline_recipe_" ++ r.ident_, 1)] ∧
      (load env w jo uncraft).1.requirements_all ("inline_recipe_" ++ r.ident_) =
        jo.inline_requirement ∧
      r.reqs ≠ [] ∧
      (uncraft = false ∨ jo.id_suffix.getD "" = "" → r.ident_ = load_key jo uncraft) := by
  obtain ⟨r1, hl⟩ := load_ok_of_no_error env w jo uncraft h
  have e := load_eq_of_ok env w jo uncraft _ hl
  rw [e]
  obtain ⟨hf1, hf2⟩ := load_decomp_learn_frame env jo _ r1 hl
  have hid := load_head_ident env jo uncraft (target_record env w.dict jo uncraft)
  have hrq := load_head_reqs env jo uncraft (target_record env w.dict jo uncraft)
  have hident : ∀ q, (load_tail jo uncraft q r1).ident_ = r1.ident_ :=
    fun q => load_tail_ident jo uncraft q r1
  refine ⟨_, find_store _ _ _ _, ?_, ?_, ?_, ?_, ?_⟩
  · rw [hident, hf1, hid]
  · rw [load_tail_reqs, hident, hf2, hrq]
  · simp only [hident, load_requirement, if_true]
  · rw [load_tail_reqs]
    simp
  · rw [hident, hf1, hid]
    rintro (hu | hs)
    · simp [load_key, hu]
    · rw [hs]
      cases uncraft <;> simp [load_key, hs]

theorem C10_witness :
    (load sample_env loaded_once time_only_definition false).2 = none ∧
      ∃ r, StrMap.find (load_key time_only_definition false)
          (target_map (load sample_env loaded_once time_only_definition false).1.dict false)
            = some r ∧
        r.ident_ = time_only_definition.result ++ time_only_definition.id_suffix.getD "" ∧
        r.reqs = using_base time_only_definition.using_
            (target_record sample_env loaded_once.dict time_only_definition false).reqs ++
          [("inline_recipe_" ++ r.ident_, 1)] ∧
        (load sample_env loaded_once time_only_definition false).1.requirements_all
            ("inline_recipe_" ++ r.ident_) = time_only_definition.inline_requirement ∧
        r.reqs ≠ [] ∧
        (false = false ∨ time_only_definition.id_suffix.getD "" = "" →
          r.ident_ = load_key time_only_definition false) :=
  ⟨by decide, C10_reqs_after_load sample_env loaded_once time_only_definition false (by decide)⟩

/-- C10 as stated fails: an uncraft definition with an `id_suffix` is stored under the
key `result`, but its inline requirement is named after `result + id_suffix`. -/
theorem C10_counterexample :
    (load sample_env sample_world suffixed_uncraft_definition true).2 = none ∧
      load_key suffixed_uncraft_definition true = "bread" ∧
      (StrMap.find "bread"
          (load sample_env sample_world suffixed_uncraft_definition true).1.dict.uncraft).map
        (fun r => r.reqs) = some [("inline_recipe_breadx", 1)] ∧
      [("inline_recipe_breadx", (1 : Int))] ≠
        using_base suffixed_uncraft_definition.using_
            (target_record sample_env sample_world.dict suffixed_uncraft_definition true).reqs ++
          [("inline_recipe_" ++ load_key suffixed_uncraft_definition true, 1)] := by
  decide

/-- C5 as amended: when the dictionary holds a record under the key and a second
definition with the same key fields carries nothing else but `time = 50`, the load
succeeds, sets `time` to 50, appends one more `("inline_recipe_" ++ ident, 1)` entry
to `reqs`, and leaves every other field of the record as it was. -/
theorem C5_time_only_reload (env : Env Req) (w : World Req) (result : String)
    (id_suffix : Option String) (inline : Req) (uncraft : Bool) (r : recipe Req)
    (hfind : StrMap.find
        (load_key { bare_definition result id_suffix inline with time := some 50 } uncraft)
        (target_map w.dict uncraft) = some r)
    (hres : r.result = result) (hid : r.ident_ = result ++ id_suffix.getD "")
    (hrev : uncraft = true → r.reversible = true) :
    (load env w { bare_definition result id_suffix inline with time := some 50 } uncraft).2
        = none ∧
      StrMap.find
        (load_key { bare_definition result id_suffix inline with time := some 50 } uncraft)
        (target_map
          (load env w { bare_definition result id_suffix inline with time := some 50 }
            uncraft).1.dict uncraft) =
        some { r with time := 50, reqs := r.reqs ++ [("inline_recipe_" ++ r.ident_, 1)] } := by
  have h50 : max (0 : Int) (min INT_MAX 50) = 50 := by decide
  have hh : load_head env { bare_definition result id_suffix inline with time := some 50 }
      uncraft r = { r with time := 50 } := by
    cases uncraft
    · simp only [load_head, bare_definition, assign, assign_bounded, h50, Option.map_none',
        Bool.or_false, Bool.false_eq_true, if_false, ← hres, hid]
    · have hr := hrev rfl
      simp only [load_head, bare_definition, assign, assign_bounded, h50, Option.map_none',
        Bool.or_false, if_true, ← hres, hid]
      rw [hr]
  have hl : load_decomp_learn env { bare_definition result id_suffix inline with time := some 50 }
      (load_head env { bare_definition result id_suffix inline with time := some 50 } uncraft
        (target_record env w.dict
          { bare_definition result id_suffix inline with time := some 50 } uncraft))
      = Except.ok { r with time := 50 } := by
    have ht : target_record env w.dict
        { bare_definition result id_suffix inline with time := some 50 } uncraft = r := by
      unfold target_record
      rw [hfind]
      rfl
    rw [ht, hh]
    rfl
  have e := load_eq_of_ok env w _ uncraft _ hl
  rw [e]
  refine ⟨rfl, ?_⟩
  rw [find_store]
  cases uncraft <;> rfl

theorem C5_witness :
    (load sample_env loaded_once
        { bare_definition "bread" none no_inline with time := some 50 } false).2 = none ∧
      StrMap.find
        (load_key { bare_definition "bread" none no_inline with time := some 50 } false)
        (target_map
          (load sample_env loaded_once
            { bare_definition "bread" none no_inline with time := some 50 } false).1.dict
          false) =
        some { bread_once with
          time := 50,
          reqs := bread_once.reqs ++ [("inline_recipe_" ++ bread_once.ident_, 1)] } :=
  C5_time_only_reload sample_env loaded_once "bread" none no_inline false bread_once
    (by decide) (by decide) (by decide) (by decide)

/-- C5 as stated fails: the second, time-only load lengthens the record's `reqs`. -/
theorem C5_counterexample :
    (StrMap.find "bread" loaded_once.dict.recipes).map (fun r => (r.time, r.reqs)) =
        some (30, [("dough", 1), ("inline_recipe_bread", 1)]) ∧
      (StrMap.find "bread" loaded_twice.dict.recipes).map (fun r => (r.time, r.reqs)) =
        some (50, [("dough", 1), ("inline_recipe_bread", 1), ("inline_recipe_bread", 1)]) := by
  decide

end Loader

/-! ## Stages B and C -/

section Finalize

variable {Req : Type}

theorem finalize_record_frame (env : Env Req) (r : recipe Req) :
    (finalize_record env r).reversible = r.reversible ∧
      (finalize_record env r).result = r.result ∧
      (finalize_record env r).reqs = r.reqs ∧
      (finalize_record env r).requirements_ = r.requirements_ ∧
      (finalize_record env r).time = r.time ∧
      (finalize_record env r).category = r.category := by
  unfold finalize_record
  simp only []
  split_ifs <;> exact ⟨rfl, rfl, rfl, rfl, rfl, rfl⟩

theorem finalize_recipe_uncraft (env : Env Req) (k : String) (r0 : recipe Req)
    (st : StageB Req) :
    (finalize_recipe env k r0 st).2.uncraft =
      if (finalize_record env r0).reversible &&
          !StrMap.count (finalize_record env r0).result st.uncraft then
        StrMap.insert (finalize_record env r0).result (finalize_record env r0) st.uncraft
      else st.uncraft := rfl

theorem finalize_recipe_keep (env : Env Req) (k : String) (r0 : recipe Req)
    (st : StageB Req) (y : String) (x : recipe Req) (h : StrMap.find y st.uncraft = some x) :
    StrMap.find y (finalize_recipe env k r0 st).2.uncraft = some x := by
  rw [finalize_recipe_uncraft]
  split_ifs with c
  · have hne : (finalize_record env r0).result ≠ y := by
      intro e
      rw [e] at c
      simp [StrMap.count, h] at c
    rw [StrMap.find_insert_ne _ hne]
    exact h
  · exact h

theorem finalize_recipe_none (env : Env Req) (k : String) (r0 : recipe Req)
    (st : StageB Req) (y : String) (h : StrMap.find y st.uncraft = none)
    (hr : ¬ (r0.reversible = true ∧ r0.result = y)) :
    StrMap.find y (finalize_recipe env k r0 st).2.uncraft = none := by
  obtain ⟨f1, f2, _⟩ := finalize_record_frame env r0
  rw [finalize_recipe_uncraft]
  split_ifs with c
  · have hne : (finalize_record env r0).result ≠ y := by
      intro e
      apply hr
      rw [f1] at c
      rw [f2] at e
      simp only [Bool.and_eq_true] at c
      exact ⟨c.1, e⟩
    rw [StrMap.find_insert_ne _ hne]
    exact h
  · exact h

theorem finalize_recipes_keep (env : Env Req) (y : String) (x : recipe Req) :
    ∀ (m : StrMap (recipe Req)) (st : StageB Req), StrMap.find y st.uncraft = some x →
      StrMap.find y (finalize_recipes env m st).2.uncraft = some x
  | [], _, h => h
  | (k, r0) :: rest, st, h => by
    simp only [finalize_recipes]
    exact finalize_recipes_keep env y x rest _ (finalize_recipe_keep env k r0 st y x h)

theorem finalize_recipes_none (env : Env Req) (y : String) :
    ∀ (m : StrMap (recipe Req)) (st : StageB Req), StrMap.find y st.uncraft = none →
      (∀ e ∈ m, ¬ (e.2.reversible = true ∧ e.2.result = y)) →
      StrMap.find y (finalize_recipes env m st).2.uncraft = none
  | [], _, h, _ => h
  | (k, r0) :: rest, st, h, hm => by
    simp only [finalize_recipes]
    exact finalize_recipes_none env y rest _
      (finalize_recipe_none env k r0 st y h (hm (k, r0) (List.mem_cons_self _ _)))
      (fun e he => hm e (List.mem_cons_of_mem _ he))

theorem finalize_recipes_find (env : Env Req) (k : String) :
    ∀ (m : StrMap (recipe Req)) (st : StageB Req),
      StrMap.find k (finalize_recipes env m st).1 = (StrMap.find k m).map (finalize_record env)
  | [], _ => rfl
  | (k2, r0) :: rest, st => by
    simp only [finalize_recipes, StrMap.find]
    by_cases h : k2 = k
    · simp only [h, if_true, Option.map_some']
      rfl
    · simp only [h, if_false]
      exact finalize_recipes_find env k rest _

theorem finalize_recipes_first (env : Env Req) (K : String) (R : recipe Req)
    (hrev : R.reversible = true) :
    ∀ (m : StrMap (recipe Req)) (st : StageB Req), StrMap.WF m →
      StrMap.find K m = some R → StrMap.find R.result st.uncraft = none →
      (∀ e ∈ m, e.2.reversible = true → e.2.result = R.result → str_lt e.1 K = false) →
      StrMap.find R.result (finalize_recipes env m st).2.uncraft =
        some (finalize_record env R)
  | [], _, _, h, _, _ => by simp [StrMap.find] at h
  | (k, r0) :: rest, st, hw, h, hn, hf => by
    simp only [finalize_recipes]
    obtain ⟨f1, f2, _⟩ := finalize_record_frame env R
    by_cases hk : k = K
    · simp only [StrMap.find, hk, if_true, Option.some.injEq] at h
      subst h
      apply finalize_recipes_keep
      rw [finalize_recipe_uncraft, f1, f2, hrev]
      simp [StrMap.count, hn, StrMap.find_insert_self]
    · simp only [StrMap.find, hk, if_false] at h
      have hmem : (K, R) ∈ rest := StrMap.find_some_mem rest h
      have hlt : str_lt k K = true := StrMap.WF_head hw (K, R) hmem
      have hnot : ¬ (r0.reversible = true ∧ r0.result = R.result) := by
        rintro ⟨a, b⟩
        have := hf (k, r0) (List.mem_cons_self _ _) a b
        rw [hlt] at this
        exact Bool.noConfusion this
      exact finalize_recipes_first env K R hrev rest _ (StrMap.WF_tail hw) h
        (finalize_recipe_none env k r0 st R.result hn hnot)
        (fun e he => hf e (List.mem_cons_of_mem _ he))

theorem add_book_uncraft_keep (env : Env Req) (catalog : String → Req) (e : String × itype)
    (u : StrMap (recipe Req)) (y : String) (x : recipe Req) (h : StrMap.find y u = some x) :
    StrMap.find y (add_book_uncraft env catalog e u) = some x := by
  unfold add_book_uncraft
  split_ifs with c
  · have hne : e.1 ≠ y := by
      intro e2
      rw [e2] at c
      simp [StrMap.count, h] at c
    simp only []
    rw [StrMap.find_insert_ne _ hne]
    exact h
  · exact h

theorem book_fold_keep (env : Env Req) (catalog : String → Req) (y : String)
    (x : recipe Req) :
    ∀ (l : List (String × itype)) (u : StrMap (recipe Req)), StrMap.find y u = some x →
      StrMap.find y (l.foldl (fun u2 e => add_book_uncraft env catalog e u2) u) = some x
  | [], _, h => h
  | e :: rest, u, h => by
    simp only [List.foldl_cons]
    exact book_fold_keep env catalog y x rest _ (add_book_uncraft_keep env catalog e u y x h)

theorem add_book_uncraft_other (env : Env Req) (catalog : String → Req)
    (e : String × itype) (u : StrMap (recipe Req)) (y : String)
    (hne : ¬ (e.1 = y ∧ e.2.book = true ∧ e.2.volume > 0)) :
    StrMap.find y (add_book_uncraft env catalog e u) = StrMap.find y u := by
  unfold add_book_uncraft
  split_ifs with c
  · have hne2 : e.1 ≠ y := by
      intro e2
      apply hne
      simp only [Bool.and_eq_true, decide_eq_true_eq] at c
      exact ⟨e2, c.1.1, c.2⟩
    simp only []
    rw [StrMap.find_insert_ne _ hne2]
  · rfl

theorem book_fold_none (env : Env Req) (catalog : String → Req) (y : String) :
    ∀ (l : List (String × itype)) (u : StrMap (recipe Req)), StrMap.find y u = none →
      (∀ e ∈ l, ¬ (e.1 = y ∧ e.2.book = true ∧ e.2.volume > 0)) →
      StrMap.find y (l.foldl (fun u2 e => add_book_uncraft env catalog e u2) u) = none
  | [], _, h, _ => h
  | e :: rest, u, h, hl => by
    simp only [List.foldl_cons]
    apply book_fold_none env catalog y rest
    · rw [add_book_uncraft_other env catalog e u y (hl e (List.mem_cons_self _ _))]
      exact h
    · exact fun e2 he => hl e2 (List.mem_cons_of_mem _ he)

theorem book_fold_some (env : Env Req) (catalog : String → Req) (y : String) (ty : itype)
    (hb : ty.book = true) (hv : ty.volume > 0) :
    ∀ (l : List (String × itype)) (u : StrMap (recipe Req)), StrMap.find y u = none →
      StrMap.find y l = some ty →
      StrMap.find y (l.foldl (fun u2 e => add_book_uncraft env catalog e u2) u) =
        some { recipe.default env with
          ident_ := y, result := y, reversible := true,
          requirements_ := env.req_scale (catalog "uncraft_book") (book_pages ty.volume),
          time := book_pages ty.volume * 10 }
  | [], _, _, h => by simp [StrMap.find] at h
  | e :: rest, u, hn, h => by
    simp only [List.foldl_cons]
    by_cases hk : e.1 = y
    · obtain ⟨k, t2⟩ := e
      simp only at hk
      subst hk
      simp only [StrMap.find, if_true, Option.some.injEq] at h
      subst h
      apply book_fold_keep
      unfold add_book_uncraft
      simp [StrMap.count, hn, hb, hv, StrMap.find_insert_self]
    · obtain ⟨k, t2⟩ := e
      simp only at hk
      simp only [StrMap.find, hk, if_false] at h
      apply book_fold_some env catalog y ty hb hv rest _ _ h
      rw [add_book_uncraft_other env catalog (k, t2) u y (fun c => hk c.1)]
      exact hn

theorem entry_result_none_of_invalid (env : Env Req) (catalog : String → Req)
    (id : String) (r : recipe Req) (h : ¬ stage_a_valid env catalog r) :
    entry_result env catalog id r = none := by
  cases hr : entry_result env catalog id r with
  | none => rfl
  | some r2 => exact absurd (entry_result_some env catalog id r r2 hr).1 h

theorem stage_a_mem_origin (env : Env Req) (catalog : String → Req)
    (m : StrMap (recipe Req)) (e : String × recipe Req)
    (he : e ∈ (finalize_internal env catalog m).1) :
    ∃ r, (e.1, r) ∈ m ∧ stage_a_valid env catalog r ∧ e.2.reversible = r.reversible ∧
      e.2.result = r.result := by
  obtain ⟨r, hr, h2⟩ := finalize_internal_mem env catalog e m he
  obtain ⟨hv, h3⟩ := entry_result_some env catalog e.1 r e.2 h2
  refine ⟨r, hr, hv, ?_, ?_⟩ <;> rw [h3]

theorem book_pages_eq_floor (v : Int) (hv : 0 ≤ v) :
    book_pages v = ⌊(v : ℚ) / 12.5⌋ := by
  have h1 : (v : ℚ) / 12.5 = ((2 * v : ℤ) : ℚ) / ((25 : ℕ) : ℚ) := by
    push_cast
    norm_num
    ring
  rw [h1, Rat.floor_intCast_div_natCast]
  unfold book_pages
  rw [Int.tdiv_eq_ediv (by omega) (by decide)]
  rfl

/-- C3 as amended: when a reversible recipe `R` stored under `K` with result `X`
passes Stage A, no uncraft definition for `X` was loaded, and no reversible recipe
with result `X` and a smaller key passes Stage A, then after `finalize`
`get_uncraft(X)` is the record found under `K` (`R` after Stage B): its requirement
expression, resolved requirements, time and container are those of that record. -/
theorem C3_least_reversible_recipe_is_the_uncraft (env : Env Req) (w : World Req)
    (K : String) (R : recipe Req)
    (hw : StrMap.WF w.dict.recipes)
    (hK : StrMap.find K w.dict.recipes = some R)
    (hvalid : stage_a_valid env w.requirements_all R)
    (hrev : R.reversible = true)
    (hno : StrMap.find R.result w.dict.uncraft = none)
    (hleast : ∀ k r, StrMap.find k w.dict.recipes = some r →
      stage_a_valid env w.requirements_all r → r.reversible = true →
      r.result = R.result → str_lt k K = false) :
    ∃ Rb, StrMap.find K (finalize env w).dict.recipes = some Rb ∧
      get_uncraft env (finalize env w).dict R.result = Rb ∧
      (get_uncraft env (finalize env w).dict R.result).reqs = Rb.reqs ∧
      (get_uncraft env (finalize env w).dict R.result).requirements_ = Rb.requirements_ ∧
      (get_uncraft env (finalize env w).dict R.result).time = Rb.time ∧
      (get_uncraft env (finalize env w).dict R.result).container = Rb.container := by
  have hA : StrMap.find K (finalize_internal env w.requirements_all w.dict.recipes).1 =
      some { R with requirements_ := weighted_sum env w.requirements_all R.reqs } := by
    rw [finalize_internal_find env _ K _ hw, hK]
    exact entry_result_of_valid env _ K R hvalid
  have hwA := finalize_internal_WF env w.requirements_all _ hw
  have hU : StrMap.find R.result (finalize env w).dict.uncraft =
      some (finalize_record env
        { R with requirements_ := weighted_sum env w.requirements_all R.reqs }) := by
    unfold finalize
    simp only []
    apply book_fold_keep
    apply finalize_recipes_first env K
      { R with requirements_ := weighted_sum env w.requirements_all R.reqs } hrev _ _ hwA hA
    · exact finalize_internal_find_none env _ _ _ hno
    · intro e he h1 h2
      obtain ⟨r, hr, hv, e1, e2⟩ := stage_a_mem_origin env _ _ e he
      exact hleast e.1 r (StrMap.mem_find_of_WF _ hw hr) hv (e1 ▸ h1) (e2 ▸ h2)
  have hR : StrMap.find K (finalize env w).dict.recipes =
      some (finalize_record env
        { R with requirements_ := weighted_sum env w.requirements_all R.reqs }) := by
    unfold finalize
    simp only []
    rw [finalize_recipes_find, hA]
    rfl
  have hG : get_uncraft env (finalize env w).dict R.result = finalize_record env
      { R with requirements_ := weighted_sum env w.requirements_all R.reqs } := by
    unfold get_uncraft
    rw [hU]
  exact ⟨_, hR, hG, by rw [hG], by rw [hG], by rw [hG], by rw [hG]⟩

theorem C3_witness :
    ∃ Rb, StrMap.find "bread" (finalize sample_env two_bread_world).dict.recipes = some Rb ∧
      get_uncraft sample_env (finalize sample_env two_bread_world).dict bread_first.result
        = Rb ∧
      (get_uncraft sample_env (finalize sample_env two_bread_world).dict
        bread_first.result).reqs = Rb.reqs ∧
      (get_uncraft sample_env (finalize sample_env two_bread_world).dict
        bread_first.result).requirements_ = Rb.requirements_ ∧
      (get_uncraft sample_env (finalize sample_env two_bread_world).dict
        bread_first.result).time = Rb.time ∧
      (get_uncraft sample_env (finalize sample_env two_bread_world).dict
        bread_first.result).container = Rb.container :=
  C3_least_reversible_recipe_is_the_uncraft sample_env two_bread_world "bread" bread_first
    (by decide) (by decide) (by decide) (by decide) (by decide)
    (fun k r hk _ _ _ =>
      (by decide : ∀ e ∈ two_bread_world.dict.recipes, str_lt e.1 "bread" = false) (k, r)
        (StrMap.find_some_mem _ hk))

/-- C3 as stated fails: of two reversible recipes with result "bread" the one stored
under the smaller key is cloned, so `get_uncraft("bread")` does not carry the time and
requirement expression of the recipe stored under "bread_x". -/
theorem C3_counterexample :
    (StrMap.find "bread_x" two_bread_world.dict.recipes).map
        (fun r => (r.reversible, r.result)) = some (true, "bread") ∧
      StrMap.find "bread" two_bread_world.dict.uncraft = none ∧
      (StrMap.find "bread_x" (finalize sample_env two_bread_world).dict.recipes).map
        (fun r => (r.time, r.reqs)) = some (20, [("inline_recipe_bread_x", 1)]) ∧
      (get_uncraft sample_env (finalize sample_env two_bread_world).dict "bread").time = 10 ∧
      (get_uncraft sample_env (finalize sample_env two_bread_world).dict "bread").reqs =
        [("inline_recipe_bread", 1)] := by
  decide

/-- C4 as amended: for an item type `Y` of the registry with a book facet and volume
`V > 0`, when no uncraft definition for `Y` was loaded and no reversible recipe with
result `Y` passes Stage A, after `finalize` the uncraft map holds under `Y` a record
with `ident = result = Y`, `reversible = true`, `time = 10 * floor(V / 12.5)` and
requirements `catalog["uncraft_book"] * floor(V / 12.5)`; the time fits an `int`
when the volume does; for `V = 250` the page count is 20 and the time 200. -/
theorem C4_book_without_uncraft_gets_pseudo_recipe (env : Env Req) (w : World Req)
    (Y : String) (ty : itype)
    (hty : StrMap.find Y env.all_itypes = some ty) (hb : ty.book = true)
    (hv : ty.volume > 0)
    (hno : StrMap.find Y w.dict.uncraft = none)
    (hrev : ∀ k r, (k, r) ∈ w.dict.recipes → r.reversible = true → r.result = Y →
      ¬ stage_a_valid env w.requirements_all r) :
    (∃ bk, StrMap.find Y (finalize env w).dict.uncraft = some bk ∧
        bk.ident_ = Y ∧ bk.result = Y ∧ bk.reversible = true ∧
        bk.time = 10 * ⌊(ty.volume : ℚ) / 12.5⌋ ∧
        bk.requirements_ =
          env.req_scale (w.requirements_all "uncraft_book") ⌊(ty.volume : ℚ) / 12.5⌋ ∧
        (ty.volume ≤ INT_MAX → 0 ≤ bk.time ∧ bk.time ≤ INT_MAX)) ∧
      book_pages 250 = 20 ∧ book_pages 250 * 10 = 200 := by
  refine ⟨?_, by decide, by decide⟩
  have hB : StrMap.find Y (finalize_recipes env
      (finalize_internal env w.requirements_all w.dict.recipes).1
      { uncraft := (finalize_internal env w.requirements_all w.dict.uncraft).1,
        category := w.dict.category, component := w.dict.component,
        book_recipes := w.book_recipes }).2.uncraft = none := by
    apply finalize_recipes_none
    · exact finalize_internal_find_none env _ _ _ hno
    · rintro e he ⟨h1, h2⟩
      obtain ⟨r, hr, hvr, e1, e2⟩ := stage_a_mem_origin env _ _ e he
      exact hrev e.1 r hr (e1 ▸ h1) (e2 ▸ h2) hvr
  have hC := book_fold_some env w.requirements_all Y ty hb hv env.all_itypes _ hB hty
  have hp := book_pages_eq_floor ty.volume (le_of_lt hv)
  refine ⟨_, hC, rfl, rfl, rfl, ?_, ?_, ?_⟩
  · simp only [← hp]
    ring
  · simp only [← hp]
  · intro hmax
    simp only []
    unfold book_pages
    unfold INT_MAX at hmax ⊢
    rw [Int.tdiv_eq_ediv (by omega) (by decide)]
    omega

theorem C4_witness :
    (∃ bk, StrMap.find "manual" (finalize sample_env sample_world).dict.uncraft = some bk ∧
        bk.ident_ = "manual" ∧ bk.result = "manual" ∧ bk.reversible = true ∧
        bk.time = 10 * ⌊(({ book := true, volume := 250, default_container := "null" }
          : itype).volume : ℚ) / 12.5⌋ ∧
        bk.requirements_ =
          sample_env.req_scale (sample_world.requirements_all "uncraft_book")
            ⌊(({ book := true, volume := 250, default_container := "null" }
              : itype).volume : ℚ) / 12.5⌋ ∧
        (({ book := true, volume := 250, default_container := "null" } : itype).volume
            ≤ INT_MAX → 0 ≤ bk.time ∧ bk.time ≤ INT_MAX)) ∧
      book_pages 250 = 20 ∧ book_pages 250 * 10 = 200 :=
  C4_book_without_uncraft_gets_pseudo_recipe sample_env sample_world "manual"
    { book := true, volume := 250, default_container := "null" }
    (by decide) (by decide) (by decide) (by decide)
    (fun _ _ h => absurd h (List.not_mem_nil _))

/-- C4 as stated fails: a reversible recipe for the book "manual" passes Stage A and is
cloned into the uncraft map, so no pseudo recipe is made for the book. -/
theorem C4_counterexample :
    StrMap.find "manual" sample_env.all_itypes =
        some { book := true, volume := 250, default_container := "null" } ∧
      StrMap.find "manual" manual_recipe_world.dict.uncraft = none ∧
      (get_uncraft sample_env (finalize sample_env manual_recipe_world).dict "manual").time
        = 30 ∧
      (get_uncraft sample_env (finalize sample_env manual_recipe_world).dict
        "manual").requirements_ ≠
        sample_env.req_scale (manual_recipe_world.requirements_all "uncraft_book") 20 := by
  decide

/-- C6 as amended: a recipe `R` stored under `K` with `charges` set or
`result_mult != 1` whose result `X` is not counted by charges has no entry under `K`
after `finalize`; and when no uncraft definition for `X` was loaded, `R` is the only
recipe with result `X`, and `X` is not a registry item type with a book facet and
positive volume, the uncraft map has no entry under `X` and `get_uncraft(X)` is the
null recipe. -/
theorem C6_charges_on_uncounted_result_are_dropped (env : Env Req) (w : World Req)
    (K : String) (R : recipe Req)
    (hw : StrMap.WF w.dict.recipes)
    (hK : StrMap.find K w.dict.recipes = some R)
    (hch : R.charges ≥ 0 ∨ R.result_mult ≠ 1)
    (hcount : env.count_by_charges R.result = false) :
    StrMap.find K (finalize env w).dict.recipes = none ∧
      lookup env (finalize env w).dict K = null_recipe env ∧
      (StrMap.find R.result w.dict.uncraft = none →
        (∀ k r, (k, r) ∈ w.dict.recipes → r.result = R.result → k = K) →
        (∀ e ∈ env.all_itypes, ¬ (e.1 = R.result ∧ e.2.book = true ∧ e.2.volume > 0)) →
        StrMap.find R.result (finalize env w).dict.uncraft = none ∧
          get_uncraft env (finalize env w).dict R.result = null_recipe env) := by
  have hinv : ¬ stage_a_valid env w.requirements_all R := by
    rintro ⟨_, _, h3, h4, _⟩
    rcases hch with h | h
    · rcases h3 with h3 | h3
      · omega
      · rw [hcount] at h3; exact Bool.noConfusion h3
    · rcases h4 with h4 | h4
      · exact h h4
      · rw [hcount] at h4; exact Bool.noConfusion h4
  have hA : StrMap.find K (finalize_internal env w.requirements_all w.dict.recipes).1 = none := by
    rw [finalize_internal_find env _ K _ hw, hK]
    exact entry_result_none_of_invalid env _ K R hinv
  have hR : StrMap.find K (finalize env w).dict.recipes = none := by
    unfold finalize
    simp only []
    rw [finalize_recipes_find, hA]
    rfl
  refine ⟨hR, ?_, ?_⟩
  · unfold lookup
    rw [hR]
  · intro hno honly hbook
    have hU : StrMap.find R.result (finalize env w).dict.uncraft = none := by
      unfold finalize
      simp only []
      apply book_fold_none _ _ _ _ _ _ hbook
      apply finalize_recipes_none
      · exact finalize_internal_find_none env _ _ _ hno
      · rintro e he ⟨_, h2⟩
        obtain ⟨r, hr, _, _, e2⟩ := stage_a_mem_origin env _ _ e he
        have hk : e.1 = K := honly e.1 r hr (e2 ▸ h2)
        exact (StrMap.find_none_iff _).mp hA e he hk
    refine ⟨hU, ?_⟩
    unfold get_uncraft
    rw [hU]

theorem C6_witness :
    StrMap.find "bread" (finalize sample_env bread_charges_world).dict.recipes = none ∧
      lookup sample_env (finalize sample_env bread_charges_world).dict "bread" =
        null_recipe sample_env ∧
      (StrMap.find bread_charges.result bread_charges_world.dict.uncraft = none →
        (∀ k r, (k, r) ∈ bread_charges_world.dict.recipes →
          r.result = bread_charges.result → k = "bread") →
        (∀ e ∈ sample_env.all_itypes,
          ¬ (e.1 = bread_charges.result ∧ e.2.book = true ∧ e.2.volume > 0)) →
        StrMap.find bread_charges.result
            (finalize sample_env bread_charges_world).dict.uncraft = none ∧
          get_uncraft sample_env (finalize sample_env bread_charges_world).dict
            bread_charges.result = null_recipe sample_env) :=
  C6_charges_on_uncounted_result_are_dropped sample_env bread_charges_world "bread"
    bread_charges (by decide) (by decide) (by decide) (by decide)

/-- C6 as stated fails: the only recipe for the book "manual" has `result_mult = 2` and
is dropped, no uncraft definition was loaded, and yet the uncraft map holds a record
under "manual" after `finalize` (the pseudo recipe made for the book). -/
theorem C6_counterexample :
    StrMap.find "manual" manual_mult_world.dict.recipes = some manual_mult ∧
      manual_mult.result_mult ≠ 1 ∧
      sample_env.count_by_charges manual_mult.result = false ∧
      StrMap.find "manual" manual_mult_world.dict.uncraft = none ∧
      (∀ e ∈ manual_mult_world.dict.recipes, e.2.result = "manual" → e.1 = "manual") ∧
      StrMap.find "manual" (finalize sample_env manual_mult_world).dict.recipes = none ∧
      (StrMap.find "manual" (finalize sample_env manual_mult_world).dict.uncraft).isSome
        = true ∧
      get_uncraft sample_env (finalize sample_env manual_mult_world).dict "manual" ≠
        null_recipe sample_env := by
  decide

theorem store_frame (d : recipe_dictionary Req) (uncraft : Bool) (key : String)
    (r : recipe Req) :
    (store d uncraft key r).category = d.category ∧
      (store d uncraft key r).component = d.component ∧
      (StrMap.WF d.recipes → StrMap.WF (store d uncraft key r).recipes) ∧
      (StrMap.WF d.uncraft → StrMap.WF (store d uncraft key r).uncraft) := by
  cases uncraft
  · exact ⟨rfl, rfl, fun h => StrMap.WF_insert key r _ h, fun h => h⟩
  · exact ⟨rfl, rfl, fun h => h, fun h => StrMap.WF_insert key r _ h⟩

theorem load_frame (env : Env Req) (w : World Req) (jo : JsonObject Req) (uncraft : Bool) :
    (load env w jo uncraft).1.dict.category = w.dict.category ∧
      (load env w jo uncraft).1.dict.component = w.dict.component ∧
      (StrMap.WF w.dict.recipes → StrMap.WF (load env w jo uncraft).1.dict.recipes) ∧
      (StrMap.WF w.dict.uncraft → StrMap.WF (load env w jo uncraft).1.dict.uncraft) := by
  cases hl : load_decomp_learn env jo
      (load_head env jo uncraft (target_record env w.dict jo uncraft)) with
  | error e =>
    obtain ⟨msg, r1⟩ := e
    rw [load_eq_of_error env w jo uncraft msg r1 hl]
    exact store_frame _ _ _ _
  | ok r1 =>
    rw [load_eq_of_ok env w jo uncraft r1 hl]
    exact store_frame _ _ _ _

theorem load_sequence_frame (env : Env Req) :
    ∀ (calls : List (JsonObject Req × Bool)) (w : World Req),
      (load_sequence env w calls).dict.category = w.dict.category ∧
        (load_sequence env w calls).dict.component = w.dict.component ∧
        (StrMap.WF w.dict.recipes → StrMap.WF (load_sequence env w calls).dict.recipes) ∧
        (StrMap.WF w.dict.uncraft → StrMap.WF (load_sequence env w calls).dict.uncraft)
  | [], _ => ⟨rfl, rfl, fun h => h, fun h => h⟩
  | c :: rest, w => by
    obtain ⟨a1, a2, a3, a4⟩ := load_frame env w c.1 c.2
    obtain ⟨b1, b2, b3, b4⟩ := load_sequence_frame env rest (load env w c.1 c.2).1
    have e : load_sequence env w (c :: rest) =
        load_sequence env (load env w c.1 c.2).1 rest := rfl
    rw [e]
    exact ⟨b1.trans a1, b2.trans a2, fun h => b3 (a3 h), fun h => b4 (a4 h)⟩

theorem mem_ptr_insert {p key : String} {s : List String} (h : p ∈ ptr_insert key s) :
    p ∈ s ∨ p = key := by
  unfold ptr_insert at h
  split_ifs at h
  · exact Or.inl h
  · rcases List.mem_append.mp h with h | h
    · exact Or.inl h
    · exact Or.inr (List.mem_singleton.mp h)

theorem index_insert_all (P : String → Prop) (label key : String)
    (idx : StrMap (List String)) (hidx : ∀ e ∈ idx, ∀ p ∈ e.2, P p) (hkey : P key) :
    ∀ e ∈ index_insert label key idx, ∀ p ∈ e.2, P p := by
  intro e he p hp
  unfold index_insert at he
  rcases StrMap.mem_insert idx he with h | h
  · rw [h] at hp
    rcases mem_ptr_insert hp with h2 | h2
    · cases hf : StrMap.find label idx with
      | none => rw [hf] at h2; simp at h2
      | some s0 =>
        rw [hf] at h2
        exact hidx (label, s0) (StrMap.find_some_mem idx hf) p h2
    · rw [h2]; exact hkey
  · exact hidx e h p hp

theorem component_fold_all (P : String → Prop) (key : String) (hkey : P key) :
    ∀ (alts : List (List String)) (idx : StrMap (List String)),
      (∀ e ∈ idx, ∀ p ∈ e.2, P p) →
      ∀ e ∈ alts.foldl
          (fun i opts => opts.foldl (fun i2 comp => index_insert comp key i2) i) idx,
        ∀ p ∈ e.2, P p
  | [], _, h => h
  | opts :: rest, idx, h => by
    simp only [List.foldl_cons]
    apply component_fold_all P key hkey rest
    have inner : ∀ (os : List String) (i : StrMap (List String)),
        (∀ e ∈ i, ∀ p ∈ e.2, P p) →
        ∀ e ∈ os.foldl (fun i2 comp => index_insert comp key i2) i, ∀ p ∈ e.2, P p := by
      intro os
      induction os with
      | nil => intro i hi; exact hi
      | cons o os ih =>
        intro i hi
        simp only [List.foldl_cons]
        exact ih _ (index_insert_all P o key i hi hkey)
    exact inner opts idx h

theorem finalize_recipes_index (env : Env Req) (P : String → Prop) :
    ∀ (m : StrMap (recipe Req)) (st : StageB Req),
      (∀ e ∈ st.category, ∀ p ∈ e.2, P p) → (∀ e ∈ st.component, ∀ p ∈ e.2, P p) →
      (∀ e ∈ m, P e.1) →
      (∀ e ∈ (finalize_recipes env m st).2.category, ∀ p ∈ e.2, P p) ∧
        (∀ e ∈ (finalize_recipes env m st).2.component, ∀ p ∈ e.2, P p)
  | [], _, h1, h2, _ => ⟨h1, h2⟩
  | (k, r0) :: rest, st, h1, h2, hm => by
    simp only [finalize_recipes]
    have hk : P k := hm (k, r0) (List.mem_cons_self _ _)
    apply finalize_recipes_index env P rest
    · exact index_insert_all P _ k st.category h1 hk
    · exact component_fold_all P k hk _ st.component h2
    · exact fun e he => hm e (List.mem_cons_of_mem _ he)

/-- C7: starting from a reset dictionary, after any sequence of loads that leaves under
`K` a recipe with a byproduct of an undefined item type, and one `finalize`: lookup
by `K` returns the null recipe, and no set of the category index and no set of the
component index holds a reference to that record. -/
theorem C7_recipe_with_undefined_byproduct_is_absent (env : Env Req) (w0 : World Req)
    (calls : List (JsonObject Req × Bool)) (K : String) (R : recipe Req) (b : String × Int)
    (hK : StrMap.find K
      (load_sequence env { w0 with dict := reset w0.dict } calls).dict.recipes = some R)
    (hb : b ∈ R.byproducts) (hundef : env.type_is_defined b.1 = false) :
    lookup env
        (finalize env (load_sequence env { w0 with dict := reset w0.dict } calls)).dict K
        = null_recipe env ∧
      (∀ e ∈ (finalize env
          (load_sequence env { w0 with dict := reset w0.dict } calls)).dict.category,
        K ∉ e.2) ∧
      (∀ e ∈ (finalize env
          (load_sequence env { w0 with dict := reset w0.dict } calls)).dict.component,
        K ∉ e.2) ∧
      (∀ cat, K ∉ in_category (finalize env
          (load_sequence env { w0 with dict := reset w0.dict } calls)).dict cat) ∧
      (∀ id, K ∉ of_component (finalize env
          (load_sequence env { w0 with dict := reset w0.dict } calls)).dict id) := by
  obtain ⟨c1, c2, c3, _⟩ :=
    load_sequence_frame env calls { w0 with dict := reset w0.dict }
  have hw := c3 StrMap.WF_nil
  generalize load_sequence env { w0 with dict := reset w0.dict } calls = w at *
  have hinv : ¬ stage_a_valid env w.requirements_all R := by
    rintro ⟨_, _, _, _, h5, _⟩
    have := h5 b hb
    rw [hundef] at this
    exact Bool.noConfusion this
  have hA : StrMap.find K (finalize_internal env w.requirements_all w.dict.recipes).1 = none := by
    rw [finalize_internal_find env _ K _ hw, hK]
    exact entry_result_none_of_invalid env _ K R hinv
  have hR : StrMap.find K (finalize env w).dict.recipes = none := by
    unfold finalize
    simp only []
    rw [finalize_recipes_find, hA]
    rfl
  have hI := finalize_recipes_index env (fun p => p ≠ K)
    (finalize_internal env w.requirements_all w.dict.recipes).1
    { uncraft := (finalize_internal env w.requirements_all w.dict.uncraft).1,
      category := w.dict.category, component := w.dict.component,
      book_recipes := w.book_recipes }
    (by rw [c1]; intro e he; simp [reset] at he)
    (by rw [c2]; intro e he; simp [reset] at he)
    ((StrMap.find_none_iff _).mp hA)
  have hcat : ∀ e ∈ (finalize env w).dict.category, K ∉ e.2 :=
    fun e he hk => hI.1 e he K hk rfl
  have hcomp : ∀ e ∈ (finalize env w).dict.component, K ∉ e.2 :=
    fun e he hk => hI.2 e he K hk rfl
  refine ⟨?_, hcat, hcomp, ?_, ?_⟩
  · unfold lookup
    rw [hR]
  · intro cat
    unfold in_category
    cases hf : StrMap.find cat (finalize env w).dict.category with
    | none => simp
    | some s => exact hcat (cat, s) (StrMap.find_some_mem _ hf)
  · intro id
    unfold of_component
    cases hf : StrMap.find id (finalize env w).dict.component with
    | none => simp
    | some s => exact hcomp (id, s) (StrMap.find_some_mem _ hf)

theorem C7_witness :
    (lookup sample_env (finalize sample_env byproduct_world).dict "bread"
        = null_recipe sample_env ∧
      (∀ e ∈ (finalize sample_env byproduct_world).dict.category, "bread" ∉ e.2) ∧
      (∀ e ∈ (finalize sample_env byproduct_world).dict.component, "bread" ∉ e.2) ∧
      (∀ cat, "bread" ∉ in_category (finalize sample_env byproduct_world).dict cat) ∧
      (∀ id, "bread" ∉ of_component (finalize sample_env byproduct_world).dict id)) ∧
      in_category (finalize sample_env byproduct_world).dict "CC_FOOD" = ["flour"] ∧
      of_component (finalize sample_env byproduct_world).dict "flour" = ["flour"] :=
  ⟨C7_recipe_with_undefined_byproduct_is_absent sample_env sample_world
      [({ bare_definition "bread" none no_inline with
            category := some "CC_FOOD", byproducts := some [("crumbs", none)] }, false),
       ({ bare_definition "flour" none no_inline with
            category := some "CC_FOOD", using_ := some (Using.name "dough") }, false)]
      "bread" bread_crumbs ("crumbs", 1) (by decide) (by decide) (by decide),
   by decide, by decide⟩

end Finalize

/-! ## Loader: frame of a single call -/

section LoaderFrame

variable {Req : Type}

theorem load_head_fields (env : Env Req) (jo : JsonObject Req) (uncraft : Bool)
    (r : recipe Req) :
    (load_head env jo uncraft r).result = jo.result ∧
      (load_head env jo uncraft r).time = (assign_bounded jo.time r.time 0 INT_MAX).1 ∧
      (load_head env jo uncraft r).difficulty =
        (assign_bounded jo.difficulty r.difficulty 0 env.MAX_SKILL).1 ∧
      (load_head env jo uncraft r).flags = (assign (jo.flags.map flag_set) r.flags).1 ∧
      (load_head env jo uncraft r).contained =
        ((assign jo.contained r.contained).1 || (assign jo.container r.container).2) ∧
      (load_head env jo uncraft r).container = (assign jo.container r.container).1 ∧
      (load_head env jo uncraft r).charges = (assign jo.charges r.charges).1 ∧
      (load_head env jo uncraft r).result_mult = (assign jo.result_mult r.result_mult).1 ∧
      (load_head env jo uncraft r).learn_by_disassembly = r.learn_by_disassembly ∧
      (load_head env jo uncraft r).byproducts = r.byproducts ∧
      (load_head env jo uncraft r).booksets = r.booksets := by
  unfold load_head
  rcases uncraft with _ | _ <;> rcases jo.batch_time_factors with _ | _ <;>
    rcases jo.autolearn with _ | (_ | _) <;>
    rcases jo.skills_required with _ | (_ | _ | _) <;>
    exact ⟨rfl, rfl, rfl, rfl, rfl, rfl, rfl, rfl, rfl, rfl, rfl⟩

theorem load_tail_frame (jo : JsonObject Req) (uncraft : Bool) (req_id : String)
    (r : recipe Req) :
    (load_tail jo uncraft req_id r).contained = r.contained ∧
      (load_tail jo uncraft req_id r).container = r.container ∧
      (load_tail jo uncraft req_id r).result = r.result ∧
      (load_tail jo uncraft req_id r).autolearn = r.autolearn ∧
      (load_tail jo uncraft req_id r).autolearn_requirements = r.autolearn_requirements := by
  unfold load_tail
  rcases uncraft with _ | _ <;> rcases jo.byproducts with _ | _ <;>
    rcases jo.book_learn with _ | _ <;> rcases jo.using_ with _ | (_ | _) <;>
    exact ⟨rfl, rfl, rfl, rfl, rfl⟩

theorem load_stored (env : Env Req) (w : World Req) (jo : JsonObject Req) (uncraft : Bool) :
    ∃ r lbd, StrMap.find (load_key jo uncraft)
        (target_map (load env w jo uncraft).1.dict uncraft) = some r ∧
      (r = { load_head env jo uncraft (target_record env w.dict jo uncraft) with
              learn_by_disassembly := lbd } ∨
        r = load_tail jo uncraft
          ("inline_recipe_" ++ (load_head env jo uncraft
            (target_record env w.dict jo uncraft)).ident_)
          { load_head env jo uncraft (target_record env w.dict jo uncraft) with
              learn_by_disassembly := lbd }) := by
  rcases load_decomp_learn_cases env jo
      (load_head env jo uncraft (target_record env w.dict jo uncraft)) with
    ⟨_, hl⟩ | ⟨n, _, _, hl⟩ | ⟨n, _, _, hl⟩ | ⟨l, _, hl⟩ | ⟨_, hl⟩
  · rw [load_eq_of_ok env w jo uncraft _ hl]
    exact ⟨_, _, find_store _ _ _ _, Or.inr rfl⟩
  · rw [load_eq_of_error env w jo uncraft _ _ hl]
    exact ⟨_, _, find_store _ _ _ _, Or.inl rfl⟩
  · rw [load_eq_of_ok env w jo uncraft _ hl]
    exact ⟨_, _, find_store _ _ _ _, Or.inr rfl⟩
  · rw [load_eq_of_ok env w jo uncraft _ hl]
    exact ⟨_, _, find_store _ _ _ _, Or.inr rfl⟩
  · rw [load_eq_of_ok env w jo uncraft _ hl]
    exact ⟨_, _, find_store _ _ _ _, Or.inr rfl⟩

/-- C11: when the definition gives a `container`, the record stored by `load` (whether
the call returns or throws) has `contained = true` and that container, whatever the
definition gives for `contained` and whatever the record held before; so the test of
Stage A condition 6, `!contained && container != "null"`, is false for it. -/
theorem C11_container_implies_contained (env : Env Req) (w : World Req)
    (jo : JsonObject Req) (uncraft : Bool) (c : String) (hc : jo.container = some c) :
    ∃ r, StrMap.find (load_key jo uncraft)
        (target_map (load env w jo uncraft).1.dict uncraft) = some r ∧
      r.contained = true ∧ r.container = c ∧
      (!r.contained && r.container != "null") = false := by
  obtain ⟨r, lbd, hf, hr⟩ := load_stored env w jo uncraft
  obtain ⟨_, _, _, _, h5, h6, _⟩ :=
    load_head_fields env jo uncraft (target_record env w.dict jo uncraft)
  have hcont : r.contained = true ∧ r.container = c := by
    rcases hr with hr | hr
    · rw [hr]
      simp only [h5, h6, hc, assign, Bool.or_true, and_self]
    · rw [hr]
      obtain ⟨t1, t2, _⟩ := load_tail_frame jo uncraft
        ("inline_recipe_" ++ (load_head env jo uncraft
          (target_record env w.dict jo uncraft)).ident_)
        { load_head env jo uncraft (target_record env w.dict jo uncraft) with
            learn_by_disassembly := lbd }
      rw [t1, t2]
      simp only [h5, h6, hc, assign, Bool.or_true, and_self]
  refine ⟨r, hf, hcont.1, hcont.2, ?_⟩
  rw [hcont.1]
  rfl

theorem C11_witness :
    ∃ r, StrMap.find (load_key container_definition false)
        (target_map (load sample_env sample_world container_definition false).1.dict false)
          = some r ∧
      r.contained = true ∧ r.container = "bottle" ∧
      (!r.contained && r.container != "null") = false :=
  C11_container_implies_contained sample_env sample_world container_definition false
    "bottle" (by decide)

/-- C20: when `load` throws the `decomp_learn` error, the target key is present in its
map afterwards; the record there has `result` and `ident` from the definition, every
member read before `decomp_learn` applied (it is the record after lines 48-109 with
`learn_by_disassembly` cleared), `reqs`, `byproducts` and `booksets` as before the
call, and the catalog is unchanged. -/
theorem C20_failed_load_is_not_rolled_back (env : Env Req) (w : World Req)
    (jo : JsonObject Req) (uncraft : Bool) (msg : String)
    (herr : (load env w jo uncraft).2 = some msg) :
    (load env w jo uncraft).1.requirements_all = w.requirements_all ∧
      ∃ r, StrMap.find (load_key jo uncraft)
          (target_map (load env w jo uncraft).1.dict uncraft) = some r ∧
        r = { load_head env jo uncraft (target_record env w.dict jo uncraft) with
                learn_by_disassembly := [] } ∧
        r.result = jo.result ∧ r.ident_ = jo.result ++ jo.id_suffix.getD "" ∧
        r.time = (assign_bounded jo.time (target_record env w.dict jo uncraft).time
          0 INT_MAX).1 ∧
        r.difficulty = (assign_bounded jo.difficulty
          (target_record env w.dict jo uncraft).difficulty 0 env.MAX_SKILL).1 ∧
        r.flags = (assign (jo.flags.map flag_set)
          (target_record env w.dict jo uncraft).flags).1 ∧
        r.contained = ((assign jo.contained (target_record env w.dict jo uncraft).contained).1
          || (assign jo.container (target_record env w.dict jo uncraft).container).2) ∧
        r.container = (assign jo.container
          (target_record env w.dict jo uncraft).container).1 ∧
        r.charges = (assign jo.charges (target_record env w.dict jo uncraft).charges).1 ∧
        r.result_mult = (assign jo.result_mult
          (target_record env w.dict jo uncraft).result_mult).1 ∧
        r.learn_by_disassembly = [] ∧
        r.reqs = (target_record env w.dict jo uncraft).reqs ∧
        r.byproducts = (target_record env w.dict jo uncraft).byproducts ∧
        r.booksets = (target_record env w.dict jo uncraft).booksets := by
  obtain ⟨h1, h2, h3, h4, h5, h6, h7, h8, _, h10, h11⟩ :=
    load_head_fields env jo uncraft (target_record env w.dict jo uncraft)
  have hid := load_head_ident env jo uncraft (target_record env w.dict jo uncraft)
  have hrq := load_head_reqs env jo uncraft (target_record env w.dict jo uncraft)
  rcases load_decomp_learn_cases env jo
      (load_head env jo uncraft (target_record env w.dict jo uncraft)) with
    ⟨_, hl⟩ | ⟨n, _, _, hl⟩ | ⟨n, _, _, hl⟩ | ⟨l, _, hl⟩ | ⟨_, hl⟩
  · rw [load_eq_of_ok env w jo uncraft _ hl] at herr; simp at herr
  · rw [load_eq_of_error env w jo uncraft _ _ hl]
    exact ⟨rfl, _, find_store _ _ _ _, rfl, h1, hid, h2, h3, h4, h5, h6, h7, h8, rfl, hrq,
      h10, h11⟩
  · rw [load_eq_of_ok env w jo uncraft _ hl] at herr; simp at herr
  · rw [load_eq_of_ok env w jo uncraft _ hl] at herr; simp at herr
  · rw [load_eq_of_ok env w jo uncraft _ hl] at herr; simp at herr

theorem C20_witness :
    ((load sample_env sample_world failing_definition false).1.requirements_all =
        sample_world.requirements_all ∧
      ∃ r, StrMap.find (load_key failing_definition false)
          (target_map (load sample_env sample_world failing_definition false).1.dict false)
            = some r ∧
        r = { load_head sample_env failing_definition false
                (target_record sample_env sample_world.dict failing_definition false) with
                learn_by_disassembly := [] } ∧
        r.result = failing_definition.result ∧
        r.ident_ = failing_definition.result ++ failing_definition.id_suffix.getD "" ∧
        r.time = (assign_bounded failing_definition.time
          (target_record sample_env sample_world.dict failing_definition false).time
          0 INT_MAX).1 ∧
        r.difficulty = (assign_bounded failing_definition.difficulty
          (target_record sample_env sample_world.dict failing_definition false).difficulty
          0 sample_env.MAX_SKILL).1 ∧
        r.flags = (assign (failing_definition.flags.map flag_set)
          (target_record sample_env sample_world.dict failing_definition false).flags).1 ∧
        r.contained = ((assign failing_definition.contained
            (target_record sample_env sample_world.dict failing_definition false).contained).1
          || (assign failing_definition.container
            (target_record sample_env sample_world.dict failing_definition false).container).2) ∧
        r.container = (assign failing_definition.container
          (target_record sample_env sample_world.dict failing_definition false).container).1 ∧
        r.charges = (assign failing_definition.charges
          (target_record sample_env sample_world.dict failing_definition false).charges).1 ∧
        r.result_mult = (assign failing_definition.result_mult
          (target_record sample_env sample_world.dict failing_definition false).result_mult).1 ∧
        r.learn_by_disassembly = [] ∧
        r.reqs = (target_record sample_env sample_world.dict failing_definition false).reqs ∧
        r.byproducts =
          (target_record sample_env sample_world.dict failing_definition false).byproducts ∧
        r.booksets =
          (target_record sample_env sample_world.dict failing_definition false).booksets) ∧
      (StrMap.find "bread"
          (load sample_env sample_world failing_definition false).1.dict.recipes).map
        (fun r => (r.time, r.difficulty, r.charges)) = some (70, 3, 2) ∧
      (StrMap.find "bread"
          (load sample_env sample_world failing_definition false).1.dict.recipes).map
        (fun r => (r.contained, r.container, r.reqs)) = some (true, "bottle", []) :=
  ⟨C20_failed_load_is_not_rolled_back sample_env sample_world failing_definition false
      "decomp_learn specified with no skill_used" (by decide),
   by decide, by decide⟩

end LoaderFrame

/-! ## Queries, reset, delete_if -/

section Queries

variable {Req : Type}

theorem erase_if_eq_filter (pred : recipe Req → Bool) :
    ∀ m : StrMap (recipe Req), erase_if pred m = m.filter (fun e => !pred e.2)
  | [] => rfl
  | (k, r) :: rest => by
    simp only [erase_if, List.filter_cons]
    cases h : pred r <;> simp [erase_if_eq_filter pred rest]

theorem erase_if_find (pred : recipe Req → Bool) (k : String) :
    ∀ m : StrMap (recipe Req), StrMap.WF m →
      StrMap.find k (erase_if pred m) =
        match StrMap.find k m with
        | some r => if pred r then none else some r
        | none => none
  | [], _ => rfl
  | (k2, r) :: rest, hw => by
    have ih := erase_if_find pred k rest (StrMap.WF_tail hw)
    by_cases hk : k2 = k
    · subst hk
      have hn : StrMap.find k2 rest = none := StrMap.find_cons_of_WF hw
      simp only [erase_if, StrMap.find, if_true]
      cases hp : pred r
      · simp [StrMap.find]
      · simp only [if_true, ih, hn]
    · simp only [erase_if, StrMap.find, hk, if_false]
      cases hp : pred r
      · simp only [Bool.false_eq_true, if_false, StrMap.find, hk, ih]
      · simp only [if_true, ih]

/-- C12: after `delete_if(p)` the recipes map and the uncraft map hold exactly those
entries of the prior maps whose record does not satisfy `p`, in the same order and
with the same records, and the category index and the component index are what they
were before the call. -/
theorem C12_delete_if_filters_maps_only (pred : recipe Req → Bool)
    (d : recipe_dictionary Req) :
    (delete_if pred d).recipes = d.recipes.filter (fun e => !pred e.2) ∧
      (delete_if pred d).uncraft = d.uncraft.filter (fun e => !pred e.2) ∧
      (∀ e, e ∈ (delete_if pred d).recipes ↔ e ∈ d.recipes ∧ pred e.2 = false) ∧
      (∀ e, e ∈ (delete_if pred d).uncraft ↔ e ∈ d.uncraft ∧ pred e.2 = false) ∧
      (delete_if pred d).category = d.category ∧
      (delete_if pred d).component = d.component := by
  have h1 : (delete_if pred d).recipes = d.recipes.filter (fun e => !pred e.2) :=
    erase_if_eq_filter pred d.recipes
  have h2 : (delete_if pred d).uncraft = d.uncraft.filter (fun e => !pred e.2) :=
    erase_if_eq_filter pred d.uncraft
  refine ⟨h1, h2, ?_, ?_, rfl, rfl⟩
  · intro e; rw [h1]; simp [List.mem_filter]
  · intro e; rw [h2]; simp [List.mem_filter]

theorem C12_witness :
    ((delete_if (fun r => decide (r.result = "bread")) sample_dict).recipes =
        sample_dict.recipes.filter (fun e => !(fun r => decide (r.result = "bread")) e.2) ∧
      (delete_if (fun r => decide (r.result = "bread")) sample_dict).uncraft =
        sample_dict.uncraft.filter (fun e => !(fun r => decide (r.result = "bread")) e.2) ∧
      (∀ e, e ∈ (delete_if (fun r => decide (r.result = "bread")) sample_dict).recipes ↔
        e ∈ sample_dict.recipes ∧ (fun r => decide (r.result = "bread")) e.2 = false) ∧
      (∀ e, e ∈ (delete_if (fun r => decide (r.result = "bread")) sample_dict).uncraft ↔
        e ∈ sample_dict.uncraft ∧ (fun r => decide (r.result = "bread")) e.2 = false) ∧
      (delete_if (fun r => decide (r.result = "bread")) sample_dict).category =
        sample_dict.category ∧
      (delete_if (fun r => decide (r.result = "bread")) sample_dict).component =
        sample_dict.component) ∧
      (delete_if (fun r => decide (r.result = "bread")) sample_dict).recipes =
        [("flour", sample_recipe "flour" [])] ∧
      (delete_if (fun r => decide (r.result = "bread")) sample_dict).uncraft = [] ∧
      in_category (delete_if (fun r => decide (r.result = "bread")) sample_dict) "CC_FOOD" =
        ["bread", "flour"] :=
  ⟨C12_delete_if_filters_maps_only (fun r => decide (r.result = "bread")) sample_dict,
   by decide, by decide, by decide⟩

/-- C13: after `reset` all four containers are empty, so every lookup by id and
`get_uncraft` returns the null recipe and `in_category` and `of_component` return the
empty set; in any state each of the four lookups returns the stored value when the
key is present and the null recipe or the empty set when it is absent. -/
theorem C13_reset_and_total_lookups (env : Env Req) (d : recipe_dictionary Req)
    (id : String) :
    ((reset d).recipes = [] ∧ (reset d).uncraft = [] ∧ (reset d).category = [] ∧
        (reset d).component = []) ∧
      (lookup env (reset d) id = null_recipe env ∧
        get_uncraft env (reset d) id = null_recipe env ∧
        in_category (reset d) id = [] ∧ of_component (reset d) id = []) ∧
      (lookup env d id = (StrMap.find id d.recipes).getD (null_recipe env) ∧
        get_uncraft env d id = (StrMap.find id d.uncraft).getD (null_recipe env) ∧
        in_category d id = (StrMap.find id d.category).getD [] ∧
        of_component d id = (StrMap.find id d.component).getD []) := by
  refine ⟨⟨rfl, rfl, rfl, rfl⟩, ⟨rfl, rfl, rfl, rfl⟩, ?_, ?_, ?_, ?_⟩
  · unfold lookup; cases StrMap.find id d.recipes <;> rfl
  · unfold get_uncraft; cases StrMap.find id d.uncraft <;> rfl
  · unfold in_category; cases StrMap.find id d.category <;> rfl
  · unfold of_component; cases StrMap.find id d.component <;> rfl

end Queries

/-! ## Finalize: autolearn, clones, repeated runs -/

section FinalizeMore

variable {Req : Type}

theorem finalize_find_recipe (env : Env Req) (w : World Req) (K : String) (R : recipe Req)
    (hw : StrMap.WF w.dict.recipes) (hK : StrMap.find K w.dict.recipes = some R)
    (hvalid : stage_a_valid env w.requirements_all R) :
    StrMap.find K (finalize env w).dict.recipes =
      some (finalize_record env
        { R with requirements_ := weighted_sum env w.requirements_all R.reqs }) := by
  unfold finalize
  simp only []
  rw [finalize_recipes_find, finalize_internal_find env _ K _ hw, hK]
  show Option.map (finalize_record env) (entry_result env w.requirements_all K R) = _
  rw [entry_result_of_valid env _ K R hvalid]
  rfl

theorem finalize_record_autolearn (env : Env Req) (r : recipe Req) :
    (finalize_record env r).autolearn_requirements =
      if r.autolearn then
        if skill_set env r.skill_used then
          StrMap.insert r.skill_used r.difficulty r.required_skills
        else r.required_skills
      else r.autolearn_requirements := by
  unfold finalize_record
  simp only []
  cases h1 : (r.contained && r.container == "null") <;> cases h2 : r.autolearn <;>
    cases h3 : skill_set env r.skill_used <;> simp [h2, h3]

/-- C16: for a recipe that passes Stage A, after `finalize` its
`autolearn_requirements` are: when `autolearn` is true, `required_skills` with the
entry for `skill_used` set to `difficulty` if `skill_used` is set (whatever level
`required_skills` held for it), and `required_skills` itself if it is not; when
`autolearn` is false, what they were before `finalize`. The list form of the
`autolearn` member leaves the flag false at load. -/
theorem C16_autolearn_requirements_after_finalize (env : Env Req) (w : World Req)
    (K : String) (R : recipe Req)
    (hw : StrMap.WF w.dict.recipes) (hK : StrMap.find K w.dict.recipes = some R)
    (hvalid : stage_a_valid env w.requirements_all R) :
    (∃ Rb, StrMap.find K (finalize env w).dict.recipes = some Rb ∧
        (R.autolearn = true → R.skill_used ≠ env.skill_null →
          Rb.autolearn_requirements =
              StrMap.insert R.skill_used R.difficulty R.required_skills ∧
            StrMap.find R.skill_used Rb.autolearn_requirements = some R.difficulty ∧
            ∀ s, s ≠ R.skill_used →
              StrMap.find s Rb.autolearn_requirements = StrMap.find s R.required_skills) ∧
        (R.autolearn = true → R.skill_used = env.skill_null →
          Rb.autolearn_requirements = R.required_skills) ∧
        (R.autolearn = false → Rb.autolearn_requirements = R.autolearn_requirements)) ∧
      (∀ (jo : JsonObject Req) (uncraft : Bool) (r : recipe Req) (l : List (String × Int)),
        jo.autolearn = some (Autolearn.levels l) →
          (load_head env jo uncraft r).autolearn = false) := by
  refine ⟨⟨_, finalize_find_recipe env w K R hw hK hvalid, ?_, ?_, ?_⟩, ?_⟩
  · intro ha hs
    have e : (finalize_record env
        { R with requirements_ := weighted_sum env w.requirements_all R.reqs }
        ).autolearn_requirements =
        StrMap.insert R.skill_used R.difficulty R.required_skills := by
      rw [finalize_record_autolearn]
      simp [skill_set, ha, hs]
    rw [e]
    refine ⟨rfl, StrMap.find_insert_self _ _ _, ?_⟩
    intro s hne
    exact StrMap.find_insert_ne _ (fun e2 => hne e2.symm) _
  · intro ha hs
    rw [finalize_record_autolearn]
    simp [skill_set, ha, hs]
  · intro ha
    rw [finalize_record_autolearn]
    simp [ha]
  · intro jo uncraft r l hl
    unfold load_head
    rw [hl]

theorem C16_witness :
    (∃ Rb, StrMap.find "bread" (finalize sample_env autolearn_world).dict.recipes = some Rb ∧
        (bread_autolearn.autolearn = true → bread_autolearn.skill_used ≠ sample_env.skill_null →
          Rb.autolearn_requirements =
              StrMap.insert bread_autolearn.skill_used bread_autolearn.difficulty
                bread_autolearn.required_skills ∧
            StrMap.find bread_autolearn.skill_used Rb.autolearn_requirements =
              some bread_autolearn.difficulty ∧
            ∀ s, s ≠ bread_autolearn.skill_used →
              StrMap.find s Rb.autolearn_requirements =
                StrMap.find s bread_autolearn.required_skills) ∧
        (bread_autolearn.autolearn = true → bread_autolearn.skill_used = sample_env.skill_null →
          Rb.autolearn_requirements = bread_autolearn.required_skills) ∧
        (bread_autolearn.autolearn = false →
          Rb.autolearn_requirements = bread_autolearn.autolearn_requirements)) ∧
      (StrMap.find "bread" (finalize sample_env autolearn_world).dict.recipes).map
        (fun r => r.autolearn_requirements) = some [("cooking", 2), ("fabrication", 1)] :=
  ⟨(C16_autolearn_requirements_after_finalize sample_env autolearn_world "bread"
      bread_autolearn (by decide) (by decide) (by decide)).1,
   by decide⟩

/-- C17: `finalize` is not idempotent. With the sample registry and catalog and a
dictionary reached from reset by one load, a second `finalize` changes the uncraft
map: the pseudo recipe of the book "manual" has an empty requirement expression, so
Stage A of the second run replaces its resolved requirements by the empty set. -/
theorem C17_finalize_is_not_idempotent :
    ∃ (env : Env SampleReq) (w0 : World SampleReq) (calls : List (JsonObject SampleReq × Bool)),
      (finalize env
          (finalize env (load_sequence env { w0 with dict := reset w0.dict } calls))
        ).dict.uncraft ≠
        (finalize env (load_sequence env { w0 with dict := reset w0.dict } calls)
        ).dict.uncraft :=
  ⟨sample_env, sample_world, [(first_definition, false)], by decide⟩

theorem str_lt_asymm {a b : String} (h : str_lt a b = true) : str_lt b a = false := by
  cases h2 : str_lt b a with
  | false => rfl
  | true =>
    have h3 := str_lt_trans h h2
    rw [str_lt_irrefl] at h3
    exact Bool.noConfusion h3

theorem exists_least_entry {β : Type} (P : String × β → Prop) :
    ∀ m : StrMap β, StrMap.WF m → (∃ e ∈ m, P e) →
      ∃ e ∈ m, P e ∧ ∀ e2 ∈ m, P e2 → str_lt e2.1 e.1 = false
  | [], _, h => by obtain ⟨e, he, _⟩ := h; simp at he
  | hd :: tl, hw, h => by
    by_cases hp : P hd
    · refine ⟨hd, List.mem_cons_self _ _, hp, ?_⟩
      intro e2 he2 _
      rcases List.mem_cons.mp he2 with e | e
      · rw [e]; exact str_lt_irrefl _
      · exact str_lt_asymm (StrMap.WF_head hw e2 e)
    · obtain ⟨e, he, hpe⟩ := h
      have het : e ∈ tl := by
        rcases List.mem_cons.mp he with e1 | e1
        · rw [e1] at hpe; exact absurd hpe hp
        · exact e1
      obtain ⟨e3, he3, hp3, hl3⟩ :=
        exists_least_entry P tl (StrMap.WF_tail hw) ⟨e, het, hpe⟩
      refine ⟨e3, List.mem_cons_of_mem _ he3, hp3, ?_⟩
      intro e2 he2 hp2
      rcases List.mem_cons.mp he2 with e1 | e1
      · rw [e1] at hp2; exact absurd hp2 hp
      · exact hl3 e2 e1 hp2

/-- C18: when the uncraft map has no entry for `X` after Stage A and some reversible
recipe with result `X` passes Stage A, there is one such recipe of least key, and
after `finalize` the uncraft entry for `X` is the record that recipe has after
Stage B; and every uncraft entry present after Stage A is still there, unchanged,
after `finalize`. -/
theorem C18_uncraft_clone_is_of_least_key (env : Env Req) (w : World Req)
    (hw : StrMap.WF w.dict.recipes) :
    (∀ X : String,
        StrMap.find X (finalize_internal env w.requirements_all w.dict.uncraft).1 = none →
        (∃ k r, StrMap.find k (finalize_internal env w.requirements_all w.dict.recipes).1
            = some r ∧ r.reversible = true ∧ r.result = X) →
        ∃ K R, StrMap.find K (finalize_internal env w.requirements_all w.dict.recipes).1
            = some R ∧ R.reversible = true ∧ R.result = X ∧
          (∀ k r, StrMap.find k (finalize_internal env w.requirements_all w.dict.recipes).1
              = some r → r.reversible = true → r.result = X → str_lt k K = false) ∧
          StrMap.find K (finalize env w).dict.recipes = some (finalize_record env R) ∧
          StrMap.find X (finalize env w).dict.uncraft = some (finalize_record env R)) ∧
      (∀ (Y : String) (x : recipe Req),
        StrMap.find Y (finalize_internal env w.requirements_all w.dict.uncraft).1 = some x →
        StrMap.find Y (finalize env w).dict.uncraft = some x) := by
  have hwA := finalize_internal_WF env w.requirements_all _ hw
  constructor
  · intro X hno hex
    obtain ⟨k0, r0, hk0, hr0, hx0⟩ := hex
    obtain ⟨e, he, ⟨hpe1, hpe2⟩, hleast⟩ :=
      exists_least_entry (fun e : String × recipe Req => e.2.reversible = true ∧ e.2.result = X)
        _ hwA ⟨(k0, r0), StrMap.find_some_mem _ hk0, hr0, hx0⟩
    have hfe := StrMap.mem_find_of_WF (k := e.1) (v := e.2) _ hwA he
    refine ⟨e.1, e.2, hfe, hpe1, hpe2, ?_, ?_, ?_⟩
    · intro k r hk h1 h2
      exact hleast (k, r) (StrMap.find_some_mem _ hk) ⟨h1, h2⟩
    · unfold finalize
      simp only []
      rw [finalize_recipes_find, hfe]
      rfl
    · unfold finalize
      simp only []
      apply book_fold_keep
      rw [← hpe2]
      apply finalize_recipes_first env e.1 e.2 hpe1 _ _ hwA hfe
      · rw [hpe2]; exact hno
      · intro e2 he2 h1 h2
        exact hleast e2 he2 ⟨h1, h2.trans hpe2⟩
  · intro Y x hY
    unfold finalize
    simp only []
    apply book_fold_keep
    exact finalize_recipes_keep env Y x _ _ hY

theorem C18_witness :
    (∃ K R, StrMap.find K
          (finalize_internal sample_env two_bread_world.requirements_all
            two_bread_world.dict.recipes).1 = some R ∧
        R.reversible = true ∧ R.result = "bread" ∧
        (∀ k r, StrMap.find k
            (finalize_internal sample_env two_bread_world.requirements_all
              two_bread_world.dict.recipes).1 = some r →
          r.reversible = true → r.result = "bread" → str_lt k K = false) ∧
        StrMap.find K (finalize sample_env two_bread_world).dict.recipes =
          some (finalize_record sample_env R) ∧
        StrMap.find "bread" (finalize sample_env two_bread_world).dict.uncraft =
          some (finalize_record sample_env R)) ∧
      (StrMap.find "bread" (finalize sample_env two_bread_world).dict.uncraft).map
        (fun r => (r.ident_, r.time)) = some ("bread", 10) :=
  ⟨(C18_uncraft_clone_is_of_least_key sample_env two_bread_world (by decide)).1 "bread"
      (by decide) ⟨"bread_x", bread_second, by decide, by decide, by decide⟩,
   by decide⟩

theorem load_ok_facts (env : Env Req) (w : World Req) (jo : JsonObject Req) (uncraft : Bool)
    (h : (load env w jo uncraft).2 = none) :
    (∃ r, StrMap.find (load_key jo uncraft)
          (target_map (load env w jo uncraft).1.dict uncraft) = some r ∧
        r.reqs = using_base jo.using_ (target_record env w.dict jo uncraft).reqs ++
          [("inline_recipe_" ++ (jo.result ++ jo.id_suffix.getD ""), 1)]) ∧
      (load env w jo uncraft).1.requirements_all
          ("inline_recipe_" ++ (jo.result ++ jo.id_suffix.getD "")) = jo.inline_requirement ∧
      target_map (load env w jo uncraft).1.dict (!uncraft) = target_map w.dict (!uncraft) := by
  obtain ⟨r1, hl⟩ := load_ok_of_no_error env w jo uncraft h
  rw [load_eq_of_ok env w jo uncraft _ hl]
  obtain ⟨hf1, hf2⟩ := load_decomp_learn_frame env jo _ r1 hl
  have hid := load_head_ident env jo uncraft (target_record env w.dict jo uncraft)
  have hrq := load_head_reqs env jo uncraft (target_record env w.dict jo uncraft)
  refine ⟨⟨_, find_store _ _ _ _, ?_⟩, ?_, ?_⟩
  · rw [load_tail_reqs, hf2, hrq, hf1, hid]
  · simp only [hf1, hid, load_requirement, if_true]
  · cases uncraft <;> rfl

/-- C19: a normal recipe definition and an uncraft definition with the same result `X`
and no `id_suffix`, loaded one after the other (in either order), both name their
inline requirement "inline_recipe_X": after the first load the catalog holds the
first definition's inline requirement under that name, after the second load it
holds the second definition's, and the `reqs` lists of both records end with that
one name. -/
theorem C19_inline_name_is_shared (env : Env Req) (w : World Req) (X : String)
    (jo1 jo2 : JsonObject Req) (u : Bool)
    (h1 : jo1.result = X) (s1 : jo1.id_suffix.getD "" = "")
    (h2 : jo2.result = X) (s2 : jo2.id_suffix.getD "" = "")
    (ok1 : (load env w jo1 u).2 = none)
    (ok2 : (load env (load env w jo1 u).1 jo2 (!u)).2 = none) :
    (load env w jo1 u).1.requirements_all ("inline_recipe_" ++ X) = jo1.inline_requirement ∧
      (load env (load env w jo1 u).1 jo2 (!u)).1.requirements_all ("inline_recipe_" ++ X)
        = jo2.inline_requirement ∧
      ∃ r1 r2,
        StrMap.find X (target_map (load env (load env w jo1 u).1 jo2 (!u)).1.dict u)
          = some r1 ∧
        StrMap.find X (target_map (load env (load env w jo1 u).1 jo2 (!u)).1.dict (!u))
          = some r2 ∧
        r1.reqs = using_base jo1.using_ (target_record env w.dict jo1 u).reqs ++
          [("inline_recipe_" ++ X, 1)] ∧
        r2.reqs = using_base jo2.using_
            (target_record env (load env w jo1 u).1.dict jo2 (!u)).reqs ++
          [("inline_recipe_" ++ X, 1)] := by
  have k1 : load_key jo1 u = X := by
    cases u <;> simp [load_key, h1, s1]
  have k2 : load_key jo2 (!u) = X := by
    cases u <;> simp [load_key, h2, s2]
  have n1 : jo1.result ++ jo1.id_suffix.getD "" = X := by rw [s1, h1]; simp
  have n2 : jo2.result ++ jo2.id_suffix.getD "" = X := by rw [s2, h2]; simp
  obtain ⟨⟨r1, f1, q1⟩, c1, _⟩ := load_ok_facts env w jo1 u ok1
  obtain ⟨⟨r2, f2, q2⟩, c2, m2⟩ := load_ok_facts env (load env w jo1 u).1 jo2 (!u) ok2
  rw [n1] at q1 c1
  rw [n2] at q2 c2
  rw [k1] at f1
  rw [k2] at f2
  rw [Bool.not_not] at m2
  refine ⟨c1, c2, r1, r2, ?_, f2, q1, q2⟩
  rw [m2]
  exact f1

theorem C19_witness :
    (load sample_env sample_world (bare_definition "bread" none flour_inline) false
        ).1.requirements_all ("inline_recipe_" ++ "bread") =
        (bare_definition "bread" none flour_inline).inline_requirement ∧
      (load sample_env
          (load sample_env sample_world (bare_definition "bread" none flour_inline) false).1
          (bare_definition "bread" none no_inline) (!false)).1.requirements_all
          ("inline_recipe_" ++ "bread") =
        (bare_definition "bread" none no_inline).inline_requirement ∧
      ∃ r1 r2,
        StrMap.find "bread" (target_map (load sample_env
          (load sample_env sample_world (bare_definition "bread" none flour_inline) false).1
          (bare_definition "bread" none no_inline) (!false)).1.dict false) = some r1 ∧
        StrMap.find "bread" (target_map (load sample_env
          (load sample_env sample_world (bare_definition "bread" none flour_inline) false).1
          (bare_definition "bread" none no_inline) (!false)).1.dict (!false)) = some r2 ∧
        r1.reqs = using_base (bare_definition "bread" none flour_inline).using_
            (target_record sample_env sample_world.dict
              (bare_definition "bread" none flour_inline) false).reqs ++
          [("inline_recipe_" ++ "bread", 1)] ∧
        r2.reqs = using_base (bare_definition "bread" none no_inline).using_
            (target_record sample_env
              (load sample_env sample_world
                (bare_definition "bread" none flour_inline) false).1.dict
              (bare_definition "bread" none no_inline) (!false)).reqs ++
          [("inline_recipe_" ++ "bread", 1)] :=
  C19_inline_name_is_shared sample_env sample_world "bread"
    (bare_definition "bread" none flour_inline) (bare_definition "bread" none no_inline) false
    (by decide) (by decide) (by decide) (by decide) (by decide) (by decide)

end FinalizeMore

/-! ## The key invariant -/

section KeyInvariant

variable {Req : Type}

theorem finalize_record_ident (env : Env Req) (r : recipe Req) :
    (finalize_record env r).ident_ = r.ident_ := by
  unfold finalize_record
  simp only []
  split_ifs <;> rfl

theorem load_dict (env : Env Req) (w : World Req) (jo : JsonObject Req) (uncraft : Bool) :
    ∃ r, (load env w jo uncraft).1.dict = store w.dict uncraft (load_key jo uncraft) r ∧
      r.ident_ = jo.result ++ jo.id_suffix.getD "" ∧ r.result = jo.result := by
  have hid := load_head_ident env jo uncraft (target_record env w.dict jo uncraft)
  have hres := (load_head_fields env jo uncraft (target_record env w.dict jo uncraft)).1
  cases hl : load_decomp_learn env jo
      (load_head env jo uncraft (target_record env w.dict jo uncraft)) with
  | error e =>
    obtain ⟨msg, r1⟩ := e
    rw [load_eq_of_error env w jo uncraft msg r1 hl]
    refine ⟨r1, rfl, ?_, ?_⟩
    · rcases load_decomp_learn_cases env jo
          (load_head env jo uncraft (target_record env w.dict jo uncraft)) with
        ⟨_, h⟩ | ⟨n, _, _, h⟩ | ⟨n, _, _, h⟩ | ⟨l, _, h⟩ | ⟨_, h⟩ <;>
        rw [hl] at h <;> cases h
      exact hid
    · rcases load_decomp_learn_cases env jo
          (load_head env jo uncraft (target_record env w.dict jo uncraft)) with
        ⟨_, h⟩ | ⟨n, _, _, h⟩ | ⟨n, _, _, h⟩ | ⟨l, _, h⟩ | ⟨_, h⟩ <;>
        rw [hl] at h <;> cases h
      exact hres
  | ok r1 =>
    rw [load_eq_of_ok env w jo uncraft r1 hl]
    obtain ⟨lbd, e⟩ := load_decomp_learn_ok env jo _ r1 hl
    refine ⟨_, rfl, ?_, ?_⟩
    · rw [load_tail_ident, e]; exact hid
    · rw [(load_tail_frame jo uncraft _ r1).2.2.1, e]; exact hres

theorem finalize_recipes_mem (env : Env Req) (e : String × recipe Req) :
    ∀ (m : StrMap (recipe Req)) (st : StageB Req), e ∈ (finalize_recipes env m st).1 →
      ∃ r, (e.1, r) ∈ m ∧ e.2 = finalize_record env r
  | [], _, h => by simp [finalize_recipes] at h
  | (k, r0) :: rest, st, h => by
    simp only [finalize_recipes] at h
    rcases List.mem_cons.mp h with h | h
    · subst h
      exact ⟨r0, List.mem_cons_self _ _, rfl⟩
    · obtain ⟨r, hr, he⟩ := finalize_recipes_mem env e rest _ h
      exact ⟨r, List.mem_cons_of_mem _ hr, he⟩

theorem finalize_recipes_uncraft_mem (env : Env Req) (e : String × recipe Req) :
    ∀ (m : StrMap (recipe Req)) (st : StageB Req), e ∈ (finalize_recipes env m st).2.uncraft →
      e ∈ st.uncraft ∨ e.2.result = e.1
  | [], _, h => Or.inl h
  | (k, r0) :: rest, st, h => by
    simp only [finalize_recipes] at h
    rcases finalize_recipes_uncraft_mem env e rest _ h with h2 | h2
    · rw [finalize_recipe_uncraft] at h2
      split_ifs at h2
      · rcases StrMap.mem_insert _ h2 with h3 | h3
        · right; rw [h3]
        · exact Or.inl h3
      · exact Or.inl h2
    · exact Or.inr h2

theorem book_fold_mem (env : Env Req) (catalog : String → Req) (e : String × recipe Req) :
    ∀ (l : List (String × itype)) (u : StrMap (recipe Req)),
      e ∈ l.foldl (fun u2 x => add_book_uncraft env catalog x u2) u →
      e ∈ u ∨ e.2.result = e.1
  | [], _, h => Or.inl h
  | x :: rest, u, h => by
    simp only [List.foldl_cons] at h
    rcases book_fold_mem env catalog e rest _ h with h2 | h2
    · unfold add_book_uncraft at h2
      split_ifs at h2
      · rcases StrMap.mem_insert _ h2 with h3 | h3
        · right; rw [h3]
        · exact Or.inl h3
      · exact Or.inl h2
    · exact Or.inr h2

theorem key_invariant_step (env : Env Req) (w : World Req) (op : Op Req)
    (h1 : ∀ e ∈ w.dict.recipes, e.2.ident_ = e.1)
    (h2 : ∀ e ∈ w.dict.uncraft, e.2.result = e.1) :
    (∀ e ∈ (apply_op env w op).dict.recipes, e.2.ident_ = e.1) ∧
      (∀ e ∈ (apply_op env w op).dict.uncraft, e.2.result = e.1) := by
  cases op with
  | load jo uncraft =>
    obtain ⟨r, hd, hid, hres⟩ := load_dict env w jo uncraft
    simp only [apply_op, hd]
    cases uncraft
    · refine ⟨?_, h2⟩
      intro e he
      rcases StrMap.mem_insert _ he with h | h
      · rw [h]; simp only [load_key]; exact hid
      · exact h1 e h
    · refine ⟨h1, ?_⟩
      intro e he
      rcases StrMap.mem_insert _ he with h | h
      · rw [h]; simp only [load_key]; exact hres
      · exact h2 e h
  | finalize =>
    simp only [apply_op]
    constructor
    · intro e he
      obtain ⟨r, hr, h3⟩ := finalize_recipes_mem env e _ _ he
      obtain ⟨r0, hr0, h4⟩ := finalize_internal_mem env _ (e.1, r) _ hr
      obtain ⟨_, h5⟩ := entry_result_some env _ _ _ _ h4
      rw [h3, finalize_record_ident]
      simp only at h5
      rw [h5]
      exact h1 (e.1, r0) hr0
    · intro e he
      rcases book_fold_mem env _ e _ _ he with h | h
      · rcases finalize_recipes_uncraft_mem env e _ _ h with h3 | h3
        · obtain ⟨r0, hr0, h4⟩ := finalize_internal_mem env _ e _ h3
          obtain ⟨_, h5⟩ := entry_result_some env _ _ _ _ h4
          rw [h5]
          exact h2 (e.1, r0) hr0
        · exact h3
      · exact h
  | delete_if pred =>
    simp only [apply_op, delete_if, erase_if_eq_filter]
    exact ⟨fun e he => h1 e (List.mem_filter.mp he).1,
      fun e he => h2 e (List.mem_filter.mp he).1⟩
  | reset =>
    simp only [apply_op, reset]
    exact ⟨fun e he => by simp at he, fun e he => by simp at he⟩

theorem key_invariant_run (env : Env Req) :
    ∀ (ops : List (Op Req)) (w : World Req),
      (∀ e ∈ w.dict.recipes, e.2.ident_ = e.1) → (∀ e ∈ w.dict.uncraft, e.2.result = e.1) →
      (∀ e ∈ (run_ops env w ops).dict.recipes, e.2.ident_ = e.1) ∧
        (∀ e ∈ (run_ops env w ops).dict.uncraft, e.2.result = e.1)
  | [], _, h1, h2 => ⟨h1, h2⟩
  | op :: rest, w, h1, h2 => by
    obtain ⟨a, b⟩ := key_invariant_step env w op h1 h2
    exact key_invariant_run env rest (apply_op env w op) a b

/-- C14: in every state reached from a reset dictionary by any sequence of `load`,
`finalize`, `delete_if` and `reset`, every entry of the recipes map is stored under
its record's `ident` and every entry of the uncraft map under its record's `result`;
and a normal `load` stores its record under `result + id_suffix` of the definition,
which it also writes into `ident`. -/
theorem C14_key_invariant (env : Env Req) (w0 : World Req) (ops : List (Op Req)) :
    (∀ e ∈ (run_ops env { w0 with dict := reset w0.dict } ops).dict.recipes,
        e.2.ident_ = e.1) ∧
      (∀ e ∈ (run_ops env { w0 with dict := reset w0.dict } ops).dict.uncraft,
        e.2.result = e.1) ∧
      (∀ (w : World Req) (jo : JsonObject Req),
        load_key jo false = jo.result ++ jo.id_suffix.getD "" ∧
        ∃ r, StrMap.find (load_key jo false) (load env w jo false).1.dict.recipes = some r ∧
          r.ident_ = jo.result ++ jo.id_suffix.getD "") ∧
      (∀ (w : World Req) (jo : JsonObject Req),
        load_key jo true = jo.result ∧
        ∃ r, StrMap.find (load_key jo true) (load env w jo true).1.dict.uncraft = some r ∧
          r.result = jo.result) := by
  obtain ⟨a, b⟩ := key_invariant_run env ops { w0 with dict := reset w0.dict }
    (fun e he => by simp [reset] at he) (fun e he => by simp [reset] at he)
  refine ⟨a, b, ?_, ?_⟩
  · intro w jo
    obtain ⟨r, hd, hid, _⟩ := load_dict env w jo false
    refine ⟨rfl, r, ?_, hid⟩
    rw [hd]
    exact StrMap.find_insert_self _ _ _
  · intro w jo
    obtain ⟨r, hd, _, hres⟩ := load_dict env w jo true
    refine ⟨rfl, r, ?_, hres⟩
    rw [hd]
    exact StrMap.find_insert_self _ _ _

theorem C14_witness :
    ((∀ e ∈ (run_ops sample_env { sample_world with dict := reset sample_world.dict }
          sample_ops).dict.recipes, e.2.ident_ = e.1) ∧
      (∀ e ∈ (run_ops sample_env { sample_world with dict := reset sample_world.dict }
          sample_ops).dict.uncraft, e.2.result = e.1)) ∧
      (run_ops sample_env { sample_world with dict := reset sample_world.dict }
        sample_ops).dict.recipes.map (fun e => (e.1, e.2.ident_, e.2.result)) =
        [("bread", "bread", "bread"), ("manual_x", "manual_x", "manual")] ∧
      (run_ops sample_env { sample_world with dict := reset sample_world.dict }
        sample_ops).dict.uncraft.map (fun e => (e.1, e.2.ident_, e.2.result)) =
        [("bread", "breadx", "bread"), ("manual", "manual_x", "manual")] :=
  ⟨⟨(C14_key_invariant sample_env sample_world sample_ops).1,
    (C14_key_invariant sample_env sample_world sample_ops).2.1⟩,
   by decide, by decide⟩

end KeyInvariant

/-! ## The derived indices -/

section Indices

variable {Req : Type}

theorem mem_ptr_insert_iff (p key : String) (s : List String) :
    p ∈ ptr_insert key s ↔ p ∈ s ∨ p = key := by
  unfold ptr_insert
  split_ifs with h
  · constructor
    · exact Or.inl
    · rintro (h2 | h2)
      · exact h2
      · rw [h2]; exact h
  · simp [List.mem_append]

theorem index_insert_members (label key c p : String) (idx : StrMap (List String)) :
    p ∈ (StrMap.find c (index_insert label key idx)).getD [] ↔
      p ∈ (StrMap.find c idx).getD [] ∨ (label = c ∧ p = key) := by
  unfold index_insert
  by_cases h : label = c
  · subst h
    rw [StrMap.find_insert_self]
    simp only [Option.getD_some, mem_ptr_insert_iff, true_and]
  · rw [StrMap.find_insert_ne _ h]
    simp [h]

theorem option_fold_members (key c p : String) :
    ∀ (opts : List String) (idx : StrMap (List String)),
      p ∈ (StrMap.find c (opts.foldl (fun i comp => index_insert comp key i) idx)).getD [] ↔
        p ∈ (StrMap.find c idx).getD [] ∨ (p = key ∧ c ∈ opts)
  | [], _ => by simp
  | o :: rest, idx => by
    simp only [List.foldl_cons]
    rw [option_fold_members key c p rest, index_insert_members]
    simp only [List.mem_cons]
    constructor
    · rintro ((h | ⟨h1, h2⟩) | ⟨h1, h2⟩)
      · exact Or.inl h
      · exact Or.inr ⟨h2, Or.inl h1.symm⟩
      · exact Or.inr ⟨h1, Or.inr h2⟩
    · rintro (h | ⟨h1, h2 | h2⟩)
      · exact Or.inl (Or.inl h)
      · exact Or.inl (Or.inr ⟨h2.symm, h1⟩)
      · exact Or.inr ⟨h1, h2⟩

theorem component_fold_members (key c p : String) :
    ∀ (alts : List (List String)) (idx : StrMap (List String)),
      p ∈ (StrMap.find c (alts.foldl
          (fun i opts => opts.foldl (fun i2 comp => index_insert comp key i2) i) idx)).getD [] ↔
        p ∈ (StrMap.find c idx).getD [] ∨ (p = key ∧ ∃ opts ∈ alts, c ∈ opts)
  | [], _ => by simp
  | a :: rest, idx => by
    simp only [List.foldl_cons]
    rw [component_fold_members key c p rest, option_fold_members]
    simp only [List.mem_cons, exists_eq_or_imp]
    constructor
    · rintro ((h | ⟨h1, h2⟩) | ⟨h1, h2⟩)
      · exact Or.inl h
      · exact Or.inr ⟨h1, Or.inl h2⟩
      · exact Or.inr ⟨h1, Or.inr h2⟩
    · rintro (h | ⟨h1, h2 | h2⟩)
      · exact Or.inl (Or.inl h)
      · exact Or.inl (Or.inr ⟨h1, h2⟩)
      · exact Or.inr ⟨h1, h2⟩

theorem finalize_recipes_members (env : Env Req) (c p : String) :
    ∀ (m : StrMap (recipe Req)) (st : StageB Req),
      (p ∈ (StrMap.find c (finalize_recipes env m st).2.category).getD [] ↔
        p ∈ (StrMap.find c st.category).getD [] ∨
          ∃ e ∈ m, e.1 = p ∧ (finalize_record env e.2).category = c) ∧
      (p ∈ (StrMap.find c (finalize_recipes env m st).2.component).getD [] ↔
        p ∈ (StrMap.find c st.component).getD [] ∨
          ∃ e ∈ m, e.1 = p ∧
            ∃ opts ∈ env.get_components (finalize_record env e.2).requirements_, c ∈ opts)
  | [], _ => by simp [finalize_recipes]
  | (k, r0) :: rest, st => by
    obtain ⟨ih1, ih2⟩ := finalize_recipes_members env c p rest (finalize_recipe env k r0 st).2
    simp only [finalize_recipes]
    constructor
    · rw [ih1]
      have e : (finalize_recipe env k r0 st).2.category =
          index_insert (finalize_record env r0).category k st.category := rfl
      rw [e, index_insert_members]
      simp only [List.mem_cons, exists_eq_or_imp]
      constructor
      · rintro ((h | ⟨h1, h2⟩) | h)
        · exact Or.inl h
        · exact Or.inr (Or.inl ⟨h2.symm, h1⟩)
        · exact Or.inr (Or.inr h)
      · rintro (h | ⟨h1, h2⟩ | h)
        · exact Or.inl (Or.inl h)
        · exact Or.inl (Or.inr ⟨h2, h1.symm⟩)
        · exact Or.inr h
    · rw [ih2]
      have e : (finalize_recipe env k r0 st).2.component =
          (env.get_components (finalize_record env r0).requirements_).foldl
            (fun i opts => opts.foldl (fun i2 comp => index_insert comp k i2) i)
            st.component := rfl
      rw [e, component_fold_members]
      simp only [List.mem_cons, exists_eq_or_imp]
      constructor
      · rintro ((h | ⟨h1, h2⟩) | h)
        · exact Or.inl h
        · exact Or.inr (Or.inl ⟨h1.symm, h2⟩)
        · exact Or.inr (Or.inr h)
      · rintro (h | ⟨h1, h2⟩ | h)
        · exact Or.inl (Or.inl h)
        · exact Or.inl (Or.inr ⟨h1.symm, h2⟩)
        · exact Or.inr h

theorem stage_b_entry_iff (env : Env Req) (m : StrMap (recipe Req)) (hw : StrMap.WF m)
    (st : StageB Req) (K : String) (Q : recipe Req → Prop) :
    (∃ e ∈ m, e.1 = K ∧ Q (finalize_record env e.2)) ↔
      ∃ R, StrMap.find K (finalize_recipes env m st).1 = some R ∧ Q R := by
  rw [finalize_recipes_find]
  constructor
  · rintro ⟨e, he, hk, hq⟩
    obtain ⟨k, r⟩ := e
    simp only at hk
    subst hk
    exact ⟨_, by rw [StrMap.mem_find_of_WF m hw he]; rfl, hq⟩
  · rintro ⟨R, hf, hq⟩
    cases hm : StrMap.find K m with
    | none => rw [hm] at hf; simp at hf
    | some r =>
      rw [hm] at hf
      simp only [Option.map_some', Option.some.injEq] at hf
      exact ⟨(K, r), StrMap.find_some_mem m hm, rfl, hf ▸ hq⟩

/-- C15: starting from a reset dictionary, after any sequence of loads and one
`finalize`, a reference to a record (its key `K` in the recipes map) is in
`in_category(c)` exactly when the recipes map holds a record under `K` whose category
is `c`, and it is in `of_component(i)` exactly when the recipes map holds a record
under `K` in whose resolved requirements some alternative of the component lists
names item type `i`; so every reference of either index is a key of the recipes
map. -/
theorem C15_indices_are_exact (env : Env Req) (w0 : World Req)
    (calls : List (JsonObject Req × Bool)) (K : String) :
    (∀ c, K ∈ in_category
          (finalize env (load_sequence env { w0 with dict := reset w0.dict } calls)).dict c ↔
        ∃ R, StrMap.find K
            (finalize env (load_sequence env { w0 with dict := reset w0.dict } calls)
              ).dict.recipes = some R ∧ R.category = c) ∧
      (∀ i, K ∈ of_component
          (finalize env (load_sequence env { w0 with dict := reset w0.dict } calls)).dict i ↔
        ∃ R, StrMap.find K
            (finalize env (load_sequence env { w0 with dict := reset w0.dict } calls)
              ).dict.recipes = some R ∧
          ∃ opts ∈ env.get_components R.requirements_, i ∈ opts) ∧
      (∀ c, K ∈ in_category
          (finalize env (load_sequence env { w0 with dict := reset w0.dict } calls)).dict c ∨
        K ∈ of_component
          (finalize env (load_sequence env { w0 with dict := reset w0.dict } calls)).dict c →
        ∃ R, StrMap.find K
            (finalize env (load_sequence env { w0 with dict := reset w0.dict } calls)
              ).dict.recipes = some R) := by
  obtain ⟨c1, c2, c3, _⟩ :=
    load_sequence_frame env calls { w0 with dict := reset w0.dict }
  have hw := c3 StrMap.WF_nil
  generalize load_sequence env { w0 with dict := reset w0.dict } calls = w at *
  have hwA := finalize_internal_WF env w.requirements_all _ hw
  have hcat : ∀ c, K ∈ in_category (finalize env w).dict c ↔
      ∃ R, StrMap.find K (finalize env w).dict.recipes = some R ∧ R.category = c := by
    intro c
    have e : in_category (finalize env w).dict c =
        (StrMap.find c (finalize env w).dict.category).getD [] := by
      unfold in_category; cases StrMap.find c (finalize env w).dict.category <;> rfl
    rw [e]
    unfold finalize
    simp only []
    rw [(finalize_recipes_members env c K _ _).1, c1]
    simp only [reset, StrMap.find, Option.getD_none, List.not_mem_nil, false_or]
    exact stage_b_entry_iff env _ hwA _ K (fun R => R.category = c)
  have hcomp : ∀ i, K ∈ of_component (finalize env w).dict i ↔
      ∃ R, StrMap.find K (finalize env w).dict.recipes = some R ∧
        ∃ opts ∈ env.get_components R.requirements_, i ∈ opts := by
    intro i
    have e : of_component (finalize env w).dict i =
        (StrMap.find i (finalize env w).dict.component).getD [] := by
      unfold of_component; cases StrMap.find i (finalize env w).dict.component <;> rfl
    rw [e]
    unfold finalize
    simp only []
    rw [(finalize_recipes_members env i K _ _).2, c2]
    simp only [reset, StrMap.find, Option.getD_none, List.not_mem_nil, false_or]
    exact stage_b_entry_iff env _ hwA _ K
      (fun R => ∃ opts ∈ env.get_components R.requirements_, i ∈ opts)
  refine ⟨hcat, hcomp, ?_⟩
  rintro c (h | h)
  · obtain ⟨R, hR, _⟩ := (hcat c).mp h
    exact ⟨R, hR⟩
  · obtain ⟨R, hR, _⟩ := (hcomp c).mp h
    exact ⟨R, hR⟩

theorem C15_witness :
    (("flour" ∈ in_category (finalize sample_env byproduct_world).dict "CC_FOOD" ↔
        ∃ R, StrMap.find "flour" (finalize sample_env byproduct_world).dict.recipes = some R ∧
          R.category = "CC_FOOD") ∧
      ("flour" ∈ of_component (finalize sample_env byproduct_world).dict "flour" ↔
        ∃ R, StrMap.find "flour" (finalize sample_env byproduct_world).dict.recipes = some R ∧
          ∃ opts ∈ sample_env.get_components R.requirements_, "flour" ∈ opts)) ∧
      "flour" ∈ in_category (finalize sample_env byproduct_world).dict "CC_FOOD" ∧
      "flour" ∈ of_component (finalize sample_env byproduct_world).dict "flour" ∧
      (finalize sample_env byproduct_world).dict.category = [("CC_FOOD", ["flour"])] ∧
      (finalize sample_env byproduct_world).dict.component = [("flour", ["flour"])] :=
  ⟨⟨(C15_indices_are_exact sample_env sample_world
        [({ bare_definition "bread" none no_inline with
              category := some "CC_FOOD", byproducts := some [("crumbs", none)] }, false),
         ({ bare_definition "flour" none no_inline with
              category := some "CC_FOOD", using_ := some (Using.name "dough") }, false)]
        "flour").1 "CC_FOOD",
     (C15_indices_are_exact sample_env sample_world
        [({ bare_definition "bread" none no_inline with
              category := some "CC_FOOD", byproducts := some [("crumbs", none)] }, false),
         ({ bare_definition "flour" none no_inline with
              category := some "CC_FOOD", using_ := some (Using.name "dough") }, false)]
        "flour").2.1 "flour"⟩,
   by decide, by decide, by decide, by decide⟩

end Indices

end RecipeDict
